import Mathlib

/-!
Shallow embedding of `src/RavenClasses.py` (CorvusKeeper): a line-oriented
reader for Raven hydrological-model input files.

Modelling conventions:
  * A file is a list of logical lines (each raw line in the file is the
    logical line followed by a newline terminator).  `FHandle` is an open
    handle: the file's lines plus a read position (index of the next line).
  * `RState` is the reader state: the active handle plus the backburner
    stack of suspended parent handles (top of stack = head of list).
  * The filesystem is an association list from paths to file contents.
  * Python string operations are re-implemented structurally on `List Char`
    so that every definition is executable by the kernel.
  * Instants and durations are modelled as integers counting microseconds
    (since the proleptic-Gregorian epoch), exactly as Python's
    `datetime`/`timedelta` store them; their arithmetic is exact integer
    arithmetic on microseconds.
  * `nexttag`'s redirect-following loop is not structurally recursive
    (redirects splice in new content), so it takes a fuel argument counting
    loop iterations; `none` means the fuel ran out.  Theorems quantify over
    or existentially provide fuel, with monotonicity lemmas.
  * pandas `read_table` is modelled by `pandasParse` on the active
    handle's remaining lines: blank lines are skipped without counting
    toward `nrows`, a buffer with no data rows raises `EmptyDataError`,
    rows wider than the column-name list have their extra leading fields
    promoted to the frame's index, short rows are NaN-padded, overwide
    rows raise a parse error, and the sentinel token maps to null.
    Attaching a datetime index of the wrong length raises `ValueError`,
    as `df['Datetime'] = dates` does.
-/

deriving instance DecidableEq for Except

namespace Raven

/-! ### String primitives (faithful to Python `str` methods used) -/

def chars (s : String) : List Char := s.data

def ofChars (l : List Char) : String := ⟨l⟩

/-- Python `str.strip()` left part: drop leading whitespace. -/
def trimChars (l : List Char) : List Char :=
  ((l.dropWhile Char.isWhitespace).reverse.dropWhile Char.isWhitespace).reverse

/-- Python `str.strip()`. -/
def strip (s : String) : String := ofChars (trimChars (chars s))

/-- Python `str.startswith(p)`. -/
def startsWithStr (s p : String) : Bool := (chars p).isPrefixOf (chars s)

/-- `splitWsAux cs acc` : accumulator-based splitting on whitespace runs. -/
def splitWsAux : List Char → List Char → List (List Char)
  | [], acc => if acc.isEmpty then [] else [acc.reverse]
  | c :: cs, acc =>
    if c.isWhitespace then
      if acc.isEmpty then splitWsAux cs [] else acc.reverse :: splitWsAux cs []
    else splitWsAux cs (c :: acc)

/-- Python `str.split()` (no argument): split on whitespace runs,
discarding leading/trailing whitespace and empty fields. -/
def splitWs (s : String) : List String := (splitWsAux (chars s) []).map ofChars

/-- `splitOnCharAux d cs acc` : split on every occurrence of `d`, keeping
empty fields (Python `str.split(d)`). -/
def splitOnCharAux (d : Char) : List Char → List Char → List (List Char)
  | [], acc => [acc.reverse]
  | c :: cs, acc =>
    if c = d then acc.reverse :: splitOnCharAux d cs []
    else splitOnCharAux d cs (c :: acc)

/-- Python `str.split(d)` for a one-character separator. -/
def splitOnChar (d : Char) (s : String) : List String :=
  (splitOnCharAux d (chars s) []).map ofChars

/-- One pass of Python `str.replace(pat, rep)` over a character list.
Fuel-indexed so that it is structurally recursive (fuel = input length
always suffices, since every step consumes at least one character). -/
def replGo (pat rep : List Char) : Nat → List Char → List Char
  | 0, l => l
  | _ + 1, [] => []
  | f + 1, c :: cs =>
    if ¬pat.isEmpty ∧ pat.isPrefixOf (c :: cs) then
      rep ++ replGo pat rep f (List.drop (pat.length - 1) cs)
    else c :: replGo pat rep f cs

/-- Python `str.replace(pat, rep)`: replace all non-overlapping occurrences,
scanning left to right. -/
def pyReplace (s pat rep : String) : String :=
  ofChars (replGo (chars pat) (chars rep) (chars s).length (chars s))

/-- Does `sub` occur as a contiguous substring? -/
def substrOccurs (sub : List Char) : List Char → Bool
  | [] => sub.isEmpty
  | c :: cs => sub.isPrefixOf (c :: cs) || substrOccurs sub cs

/-! ### Numeric / date parsing (Python `int`, `float`, `strptime`) -/

def digitsValAux : List Char → Nat → Option Nat
  | [], acc => some acc
  | c :: cs, acc =>
    if c.isDigit then digitsValAux cs (acc * 10 + (c.toNat - 48)) else none

/-- All-digit nonempty string to `Nat`. -/
def parseNatChars (l : List Char) : Option Nat :=
  if l.isEmpty then none else digitsValAux l 0

/-- Python `int(s)`: strips whitespace, optional sign, decimal digits. -/
def pyParseInt (s : String) : Option Int :=
  match trimChars (chars s) with
  | '+' :: rest => (parseNatChars rest).map Int.ofNat
  | '-' :: rest => (parseNatChars rest).map (fun n => -(n : Int))
  | l => (parseNatChars l).map Int.ofNat

/-- Unsigned decimal literal (`123`, `1.5`, `.5`, `1.`) as a scaled
integer: `(m, k)` denotes `m / 10^k`.  (Exponents and `inf`/`nan` forms
are not used by Raven files.) -/
def parseDecimalChars (l : List Char) : Option (Int × Nat) :=
  match (splitOnCharAux '.' l []) with
  | [ip] => (parseNatChars ip).map (fun n => ((n : Int), 0))
  | [ip, fp] =>
    if ip.isEmpty ∧ fp.isEmpty then none
    else
      match digitsValAux ip 0, digitsValAux fp 0 with
      | some i, some f => some (((i * 10 ^ fp.length + f : Nat) : Int), fp.length)
      | _, _ => none
  | _ => none

/-- Python `float(s)` restricted to plain decimal literals, as a scaled
integer `(m, k)` denoting `m / 10^k`. -/
def pyParseFloat (s : String) : Option (Int × Nat) :=
  match trimChars (chars s) with
  | '+' :: rest => parseDecimalChars rest
  | '-' :: rest => (parseDecimalChars rest).map (fun p => (-p.1, p.2))
  | l => parseDecimalChars l

/-- Microseconds per day: the resolution of Python's `timedelta`. -/
def usPerDay : Int := 86400000000

/-- `dt.timedelta(days=x)` for `x = m / 10^k` days: the duration in
microseconds (`timedelta` rounds the float to microsecond resolution;
rounding differences below one microsecond are ignored here). -/
def timedeltaOfDays (p : Int × Nat) : Int := p.1 * usPerDay / (10 : Int) ^ p.2

def isLeap (y : Nat) : Bool := (y % 4 = 0 && y % 100 ≠ 0) || y % 400 = 0

def monthLengths (y : Nat) : List Nat :=
  [31, if isLeap y then 29 else 28, 31, 30, 31, 30, 31, 31, 30, 31, 30, 31]

def daysInMonth (y m : Nat) : Nat := ((monthLengths y).get? (m - 1)).getD 0

/-- Days in the months strictly before month `m` of year `y`. -/
def cumMonthDays (y m : Nat) : Nat := (((monthLengths y).take (m - 1)).foldl (· + ·) 0)

/-- Proleptic-Gregorian day number of year `y`, month `m`, day `d`. -/
def dateToDayNumber (y m d : Nat) : Nat :=
  (y - 1) * 365 + ((y - 1) / 4 - (y - 1) / 100 + (y - 1) / 400) + cumMonthDays y m + (d - 1)

/-- `strptime` with format `%Y-%m-%d`: a 4-digit year (`datetime` requires
year ≥ 1), a 1-2 digit month in 1..12, a 1-2 digit day valid for that
month.  Result: the day number. -/
def parseDate (s : String) : Option Nat :=
  match splitOnChar '-' s with
  | [ys, ms, ds] =>
    match parseNatChars (chars ys), parseNatChars (chars ms), parseNatChars (chars ds) with
    | some y, some m, some d =>
      if (chars ys).length = 4 ∧ 1 ≤ y ∧
         (chars ms).length ≤ 2 ∧ 1 ≤ m ∧ m ≤ 12 ∧
         (chars ds).length ≤ 2 ∧ 1 ≤ d ∧ d ≤ daysInMonth y m then
        some (dateToDayNumber y m d)
      else none
    | _, _, _ => none
  | _ => none

/-- `strptime` with format `%H:%M:%S` (seconds 60/61 pass the regex but are
rejected by the `datetime` constructor).  Result: microseconds into the
day. -/
def parseTime (s : String) : Option Int :=
  match splitOnChar ':' s with
  | [hs, ms, ss] =>
    match parseNatChars (chars hs), parseNatChars (chars ms), parseNatChars (chars ss) with
    | some h, some m, some sec =>
      if (chars hs).length ≤ 2 ∧ h ≤ 23 ∧
         (chars ms).length ≤ 2 ∧ m ≤ 59 ∧
         (chars ss).length ≤ 2 ∧ sec ≤ 59 then
        some (((h * 3600 + m * 60 + sec : Nat) : Int) * 1000000)
      else none
    | _, _, _ => none
  | _ => none

/-- `dt.datetime.strptime('{} {}'.format(t0, t1), '%Y-%m-%d  %H:%M:%S')`:
the whitespace run in the format matches the single joining space, so this
is a date parse of `t0` and a time parse of `t1`.  Result: the instant in
microseconds. -/
def parseDateTime (t0 t1 : String) : Option Int := do
  let d ← parseDate t0
  let t ← parseTime t1
  pure ((d : Int) * usPerDay + t)

/-! ### Reader state (`RavenFileReader`) -/

/-- An open file handle: the file's logical lines and the index of the next
line to be read (`fileobject.tell()` at line granularity). -/
structure FHandle where
  content : List String
  pos : Nat
deriving DecidableEq, Repr

/-- Reader state: active handle plus the backburner stack of suspended
parent handles (`_backburner`; Python appends/pops at the list end, here
the head of the list is the top of the stack). -/
structure RState where
  active : FHandle
  backburner : List FHandle
deriving DecidableEq, Repr

/-- Fixed per-reader environment: the filesystem, `self.path` (directory of
the original file, used to resolve redirects) and `self.filename`. -/
structure Env where
  fs : List (String × List String)
  dir : String
  filename : String

def FHandle.remaining (h : FHandle) : List String := h.content.drop h.pos

/-- The virtual line stream still to be read: the active handle's remaining
lines followed by the remaining lines of each stacked parent. -/
def virt (s : RState) : List String :=
  s.active.remaining ++ (s.backburner.map FHandle.remaining).flatten

/-- A fresh reader on a single top-level file. -/
def canon (L : List String) : RState := ⟨⟨L, 0⟩, []⟩

/-- `eof_check`: reads a 25-byte chunk (empty iff no lines remain, since
every remaining line carries at least its terminator byte); on an empty
chunk pops the backburner if possible, else reports EOF; on a non-empty
chunk seeks back, leaving the externally visible position unchanged. -/
def eof_check (s : RState) : Bool × RState :=
  if s.active.pos < s.active.content.length then (false, s)
  else
    match s.backburner with
    | b :: bs => (false, ⟨b, bs⟩)
    | [] => (true, s)

/-- `nextline`: `self.fileobject.readline().strip()`.  At EOF `readline`
returns the empty string and does not advance. -/
def nextline (s : RState) : String × RState :=
  match s.active.content[s.active.pos]? with
  | some l => (strip l, ⟨⟨s.active.content, s.active.pos + 1⟩, s.backburner⟩)
  | none => ("", s)

/-- `line.startswith(':RedirectToFile')`. -/
def isRedirectLine (l : String) : Bool := startsWithStr l ":RedirectToFile"

/-- `line.replace(':RedirectToFile', '').strip()`. -/
def redirectArg (l : String) : String := strip (pyReplace l ":RedirectToFile" "")

/-- `os.path.join(self.path, arg)` for the relative arguments Raven uses. -/
def joinPath (d a : String) : String :=
  if startsWithStr a "/" then a else if d = "" then a else d ++ "/" ++ a

/-- `os.path.exists` plus `open`: look a path up in the filesystem. -/
def lookupFs (fs : List (String × List String)) (p : String) : Option (List String) :=
  (fs.find? (fun e => e.1 = p)).map (fun e => e.2)

/-- `'RedirectToFile path invalid: {} \nIn File:'.format(nextfile, self.filename)`:
the format string has a single placeholder, so the second argument (the
filename) is silently ignored by `str.format`. -/
def formatRedirectError (nextfile : String) (_filename : String) : String :=
  "RedirectToFile path invalid: " ++ nextfile ++ " \nIn File:"

/-- `nexttag`, fuel-indexed (one fuel unit per loop iteration; `none` means
the fuel ran out).  Result: `.ok (some l, s)` – the next tag line `l`;
`.ok (none, s)` – EOF reached (Python returns `False`); `.error m` – the
`RuntimeError` raised for a missing redirect target. -/
def nexttag (env : Env) : Nat → RState → Option (Except String (Option String × RState))
  | 0, _ => none
  | fuel + 1, s =>
    match eof_check s with
    | (true, s1) => some (.ok (none, s1))
    | (false, s1) =>
      match nextline s1 with
      | (l, s2) =>
        if isRedirectLine l then
          match lookupFs env.fs (joinPath env.dir (redirectArg l)) with
          | some tlines => nexttag env fuel ⟨⟨tlines, 0⟩, s2.active :: s2.backburner⟩
          | none => some (.error (formatRedirectError (joinPath env.dir (redirectArg l)) env.filename))
        else if startsWithStr l ":" then some (.ok (some l, s2))
        else nexttag env fuel s2

/-- The pure parsing pipeline of `read_dateline` applied to the (stripped)
line: tokenize on whitespace, parse `line[0] line[1]` as a datetime,
`line[2]` as a float (step in days), `line[3]` as an int.  Any index or
parse failure is the abstract `MalformedDateLine` outcome (`none`). -/
def datelineParse (l : String) : Option ((Int × Int) × Int) := do
  let toks := splitWs l
  let t0 ← toks[0]?
  let t1 ← toks[1]?
  let start ← parseDateTime t0 t1
  let t2 ← toks[2]?
  let delta ← pyParseFloat t2
  let t3 ← toks[3]?
  let n ← pyParseInt t3
  pure ((start, timedeltaOfDays delta), n)

/-- `read_dateline`: consumes one line (also on failure, since the line is
read before any parsing), returning `((start, step), count)` on success. -/
def read_dateline (s : RState) : Option ((Int × Int) × Int) × RState :=
  let p := nextline s
  (datelineParse p.1, p.2)

/-- `skiplines`: `n` bare `readline()` calls on the active handle (each
advances the position by one line unless already at EOF). -/
def skiplines (n : Nat) (s : RState) : RState :=
  match n with
  | 0 => s
  | n + 1 =>
    skiplines n
      (if s.active.pos < s.active.content.length then
        ⟨⟨s.active.content, s.active.pos + 1⟩, s.backburner⟩
      else s)

/-- `comma_detector`: peek the next line, report whether it contains a
comma, seek back (state unchanged). -/
def comma_detector (s : RState) : Bool × RState :=
  ((chars (nextline s).1).contains ',', s)

/-- A raw line as the file iterator yields it: terminator included.  This
is why `get_datadist`'s `line == ''` comparison can never be true. -/
def rawLine (l : String) : String := l ++ "\n"

/-- The loop body of `get_datadist`: count lines until one whose stripped
form starts with `:`, or whose raw form equals `''` (never), or the input
ends. -/
def datadistCount : List String → Nat
  | [] => 0
  | l :: rest =>
    if startsWithStr (strip l) ":" || rawLine l = "" then 0
    else datadistCount rest + 1

/-- `get_datadist`: counts from the current position, then seeks back to
where it started. -/
def get_datadist (s : RState) : Nat × RState :=
  (datadistCount s.active.remaining, s)

/-! ### Table decoder (`read_RavenFrame`) -/

/-- A decoded table: ordered column names, row-major cells (`none` = null /
missing), and the optional datetime index. -/
structure RavenFrame where
  colnames : List String
  rows : List (List (Option String))
  index : Option (List Int)
deriving DecidableEq, Repr

/-- `tag.replace(',', ' ').split()`: the token list of a header tag line. -/
def tagTokens (l : String) : List String := splitWs (pyReplace l "," " ")

/-- The `if header:` block of `read_RavenFrame`: infer `parameters` from a
tag line when no names are given, always read the units tag line, then
prepend `'ID'` when `id_col`.  `.error` cases: a missing redirect target
during a header `nexttag` (the `RuntimeError`), or `nexttag` returning
`False` at EOF (Python would crash calling `.replace` on `False`). -/
def headerPhase (env : Env) (fuel : Nat) (header : Bool) (names : Option (List String))
    (id_col : Bool) (s : RState) :
    Option (Except String (Option (List String) × List String × RState)) :=
  if header then
    match names with
    | some ps =>
      match nexttag env fuel s with
      | none => none
      | some (.error e) => some (.error e)
      | some (.ok (none, _)) => some (.error "AttributeError")
      | some (.ok (some ul, s1)) =>
        some (.ok (some (if id_col then "ID" :: ps else ps), (tagTokens ul).drop 1, s1))
    | none =>
      match nexttag env fuel s with
      | none => none
      | some (.error e) => some (.error e)
      | some (.ok (none, _)) => some (.error "AttributeError")
      | some (.ok (some nl, s1)) =>
        match nexttag env fuel s1 with
        | none => none
        | some (.error e) => some (.error e)
        | some (.ok (none, _)) => some (.error "AttributeError")
        | some (.ok (some ul, s2)) =>
          let ps := (tagTokens nl).drop 1
          some (.ok (some (if id_col then "ID" :: ps else ps), (tagTokens ul).drop 1, s2))
  else some (.ok (names, [], s))

/-- Tokenize one data row: on commas when comma-delimited (pandas strips
the surrounding whitespace of each field when coercing), else on
whitespace runs. -/
def rowTokens (isComma : Bool) (l : String) : List String :=
  if isComma then (splitOnChar ',' l).map strip else splitWs l

/-- pandas' default integer column labels `0, 1, …` (used when no names are
passed), as strings. -/
def defaultNames (w : Nat) : List String := (List.range w).map (fun n => toString n)

/-- The decoder's row count: the `nvalues` hint when given, else the
measured block length (`get_datadist`) at the post-header state. -/
def resolvedRowCount (nv : Option Nat) (s1 : RState) : Nat :=
  match nv with
  | some v => v
  | none => (get_datadist s1).1

/-- `[time_tuple[0] + time_tuple[1] * d for d in range(0, nvalues)]`. -/
def dateIndex (start delta : Int) (n : Nat) : List Int :=
  (List.range n).map (fun (d : Nat) => start + delta * (d : Int))

/-- A blank line in pandas' sense (`skip_blank_lines=True`, the default):
a line that is empty, or whitespace-only, which tokenizes to nothing. -/
def isBlankLine (l : String) : Bool := strip l = ""

/-- Pad a short data row with nulls up to the column count, as the parser
fills missing trailing fields with NaN. -/
def padRow (k : Nat) (cells : List (Option String)) : List (Option String) :=
  cells ++ List.replicate (k - cells.length) none

/-- `pd.read_table(fileobject, sep/delim_whitespace, header=None, names,
nrows=n, na_values=na)` applied to the remaining buffer of the active
handle:
  * blank lines are skipped and do not count toward `nrows`
    (`skip_blank_lines=True` is the default);
  * a buffer with no data rows at all raises `EmptyDataError`
    ("No columns to parse from file");
  * the column structure is inferred from the first data row of the
    buffer: with no `names`, its width `w0` fixes the default integer
    column labels; with `names` of length `k < w0`, the first `w0 - k`
    fields of every row are promoted to the frame's index (the promoted
    index values are not recorded here — no caller reads them, and
    `set_index` discards them when a datetime index is attached);
  * a row wider than the first row raises a parse error, and mixed widths
    under index promotion do too; a short row is padded with NaN;
  * each field equal to the `na_values` sentinel becomes null.
Result: the column names and the parsed rows. -/
def pandasParse (isComma : Bool) (names : Option (List String)) (n : Nat) (na : String)
    (buffer : List String) : Except String (List String × List (List (Option String))) :=
  match buffer.filter (fun l => !(isBlankLine l)) with
  | [] => .error "EmptyDataError"
  | first :: rest =>
    let w0 := (rowTokens isComma first).length
    let rawRows := ((first :: rest).take n).map (rowTokens isComma)
    let k := match names with
      | some ps => ps.length
      | none => w0
    let nidx := if k < w0 then w0 - k else 0
    if rawRows.any (fun r => w0 < r.length) then .error "ParserError"
    else if nidx ≠ 0 ∧ rawRows.any (fun r => r.length ≠ w0) then .error "ParserError"
    else
      let cols := match names with
        | some ps => ps
        | none => defaultNames w0
      let rows := rawRows.map (fun r =>
        padRow k ((r.drop nidx).map (fun t => if t = na then none else some t)))
      .ok (cols, rows)

/-- `read_RavenFrame`.  After the header phase: remember the position
(`curr_pos = tell()`), autodetect the row count (`get_datadist`) when no
`nvalues` hint was given, detect the delimiter, hand the buffer to pandas
(`pandasParse`; an `EmptyDataError` or parse error aborts the pass), then
seek back to `curr_pos` and `skiplines(nvalues)`; finally, when a
`time_tuple` was passed, generate the datetime list and attach it with
`df['Datetime'] = dates; set_index` — the assignment raises `ValueError`
when the generated list's length differs from the frame's row count
(e.g. when blank lines were skipped). -/
def read_RavenFrame (env : Env) (fuel : Nat) (nvalues : Option Nat) (header : Bool)
    (names : Option (List String)) (id_col : Bool) (time_tuple : Option (Int × Int))
    (na_values : String) (s : RState) :
    Option (Except String ((RavenFrame × List String) × RState)) :=
  match headerPhase env fuel header names id_col s with
  | none => none
  | some (.error e) => some (.error e)
  | some (.ok (params, units, s1)) =>
    let currPos := s1.active.pos
    let n := resolvedRowCount nvalues s1
    let isComma := (comma_detector s1).1
    match pandasParse isComma params n na_values s1.active.remaining with
    | .error e => some (.error e)
    | .ok (cols, rows) =>
      let s2 := skiplines n ⟨⟨s1.active.content, currPos⟩, s1.backburner⟩
      match time_tuple with
      | some td =>
        if rows.length = n then
          some (.ok ((⟨cols, rows, some (dateIndex td.1 td.2 n)⟩, units), s2))
        else some (.error "ValueError")
      | none => some (.ok ((⟨cols, rows, none⟩, units), s2))

/-! ### `RavenRVT` gauge accessors -/

/-- The state of a `RavenRVT` instance that the positional accessors see:
the two insertion-ordered gauge mappings (only the `'Data'` frame of each
record is relevant here).  Python dict keys are unique, so indexing the
key list and then looking the key up equals positional access. -/
structure RavenRVT where
  metgauges : List (String × RavenFrame)
  obsgauges : List (Int × RavenFrame)
deriving DecidableEq, Repr

def nmetgauges (r : RavenRVT) : Nat := r.metgauges.length

def nobsgauges (r : RavenRVT) : Nat := r.obsgauges.length

/-- `imet(i)`: the guard raises the bounds `IndexError` only when
`i > nmetgauges`; otherwise `list(self.metgauges.keys())[i]` is evaluated,
which itself raises Python's built-in list `IndexError` when `i` is the
gauge count. -/
def imet (r : RavenRVT) (i : Nat) : Except String RavenFrame :=
  if i > nmetgauges r then .error "Gauge index higher than number of gauges"
  else
    match r.metgauges.get? i with
    | some e => .ok e.2
    | none => .error "list index out of range"

/-- `iobs(i)`: same structure as `imet` over the observation mapping. -/
def iobs (r : RavenRVT) (i : Nat) : Except String RavenFrame :=
  if i > nobsgauges r then .error "Gauge index higher than number of gauges"
  else
    match r.obsgauges.get? i with
    | some e => .ok e.2
    | none => .error "list index out of range"

/-! ### Tag-sequence observable -/

/-- Repeatedly call `nexttag`, collecting the returned tags, as the format
readers' top-level loops do.  `fuel` is passed to each `nexttag` call and
`n` bounds the number of calls; the second component of the result is
`none` for a clean EOF and `some m` when a `RuntimeError` aborted the
pass. -/
def runTags (env : Env) (fuel : Nat) : Nat → RState → Option (List String × Option String)
  | 0, _ => none
  | n + 1, s =>
    match nexttag env fuel s with
    | none => none
    | some (.error m) => some ([], some m)
    | some (.ok (none, _)) => some ([], none)
    | some (.ok (some l, s1)) =>
      match runTags env fuel n s1 with
      | none => none
      | some (ts, tm) => some (l :: ts, tm)

/-! ### Proof-support definitions -/

/-- Pop exhausted handles until the active handle has a line to read, or
everything is exhausted.  `eof_check` performs one such pop per call; this
is its closure, used to normalize states in simulation arguments. -/
def popAllAux : FHandle → List FHandle → RState
  | h, [] => ⟨h, []⟩
  | h, b :: bs =>
    if h.pos < h.content.length then ⟨h, b :: bs⟩ else popAllAux b bs

def popAll (s : RState) : RState := popAllAux s.active s.backburner

/-- Two `nexttag` outcomes agree observably: same error, both EOF, or the
same tag with states whose virtual streams agree. -/
def MatchRes : Except String (Option String × RState) → Except String (Option String × RState) → Prop
  | .error m, .error m' => m = m'
  | .ok (none, _), .ok (none, _) => True
  | .ok (some l, a), .ok (some l', b) => l = l' ∧ virt a = virt b
  | _, _ => False

/-- The second stream is the first with one occurrence of the redirect
line `t` replaced by the target's lines `tl`. -/
def StreamRel (t : String) (tl : List String) (X Y : List String) : Prop :=
  ∃ p q, X = p ++ t :: q ∧ Y = p ++ tl ++ q

/-- Streams equal, or related by one redirect-for-content replacement. -/
def SRel (t : String) (tl : List String) (X Y : List String) : Prop :=
  X = Y ∨ StreamRel t tl X Y

/-- Like `MatchRes` but the continuation streams may still be related by
the pending replacement rather than equal. -/
def MatchC (t : String) (tl : List String) :
    Except String (Option String × RState) → Except String (Option String × RState) → Prop
  | .error m, .error m' => m = m'
  | .ok (none, _), .ok (none, _) => True
  | .ok (some l, a), .ok (some l', b) => l = l' ∧ SRel t tl (virt a) (virt b)
  | _, _ => False

/-! ## Theorems -/

/-! ### Branch lemmas for the reader primitives -/

theorem eof_check_active (s : RState) (h : s.active.pos < s.active.content.length) :
    eof_check s = (false, s) := by
  simp [eof_check, h]

theorem eof_check_pop (s : RState) (h : ¬ s.active.pos < s.active.content.length)
    (b : FHandle) (bs : List FHandle) (hb : s.backburner = b :: bs) :
    eof_check s = (false, ⟨b, bs⟩) := by
  simp [eof_check, h, hb]

theorem eof_check_eof (s : RState) (h : ¬ s.active.pos < s.active.content.length)
    (hb : s.backburner = []) : eof_check s = (true, s) := by
  simp [eof_check, h, hb]

theorem nextline_get (s : RState) (l : String)
    (h : s.active.content[s.active.pos]? = some l) :
    nextline s = (strip l, ⟨⟨s.active.content, s.active.pos + 1⟩, s.backburner⟩) := by
  simp [nextline, h]

theorem nextline_none (s : RState) (h : s.active.content[s.active.pos]? = none) :
    nextline s = ("", s) := by
  simp [nextline, h]

theorem nexttag_zero (env : Env) (s : RState) : nexttag env 0 s = none := rfl

theorem nexttag_eof (env : Env) (f : Nat) (s s1 : RState) (h : eof_check s = (true, s1)) :
    nexttag env (f + 1) s = some (.ok (none, s1)) := by
  simp [nexttag, h]

theorem nexttag_tag (env : Env) (f : Nat) (s s1 s2 : RState) (l : String)
    (he : eof_check s = (false, s1)) (hn : nextline s1 = (l, s2))
    (hr : isRedirectLine l = false) (ht : startsWithStr l ":" = true) :
    nexttag env (f + 1) s = some (.ok (some l, s2)) := by
  simp [nexttag, he, hn, hr, ht]

theorem nexttag_skip (env : Env) (f : Nat) (s s1 s2 : RState) (l : String)
    (he : eof_check s = (false, s1)) (hn : nextline s1 = (l, s2))
    (hr : isRedirectLine l = false) (ht : startsWithStr l ":" = false) :
    nexttag env (f + 1) s = nexttag env f s2 := by
  simp [nexttag, he, hn, hr, ht]

theorem nexttag_redirect (env : Env) (f : Nat) (s s1 s2 : RState) (l : String)
    (tl : List String) (he : eof_check s = (false, s1)) (hn : nextline s1 = (l, s2))
    (hr : isRedirectLine l = true)
    (hl : lookupFs env.fs (joinPath env.dir (redirectArg l)) = some tl) :
    nexttag env (f + 1) s = nexttag env f ⟨⟨tl, 0⟩, s2.active :: s2.backburner⟩ := by
  simp [nexttag, he, hn, hr, hl]

theorem nexttag_redirect_missing (env : Env) (f : Nat) (s s1 s2 : RState) (l : String)
    (he : eof_check s = (false, s1)) (hn : nextline s1 = (l, s2))
    (hr : isRedirectLine l = true)
    (hl : lookupFs env.fs (joinPath env.dir (redirectArg l)) = none) :
    nexttag env (f + 1) s =
      some (.error (formatRedirectError (joinPath env.dir (redirectArg l)) env.filename)) := by
  simp [nexttag, he, hn, hr, hl]

theorem nexttag_pop_exposed (env : Env) (f : Nat) (a b : FHandle) (bs : List FHandle)
    (ha : ¬ a.pos < a.content.length) (hb : b.pos < b.content.length) :
    nexttag env f ⟨a, b :: bs⟩ = nexttag env f ⟨b, bs⟩ := by
  cases f with
  | zero => rfl
  | succ f =>
    simp only [nexttag]
    rw [eof_check_pop ⟨a, b :: bs⟩ ha b bs rfl, eof_check_active ⟨b, bs⟩ hb]

theorem nexttag_pop_unexposed (env : Env) (f : Nat) (a b : FHandle) (bs : List FHandle)
    (ha : ¬ a.pos < a.content.length) (hb : ¬ b.pos < b.content.length) :
    nexttag env (f + 1) ⟨a, b :: bs⟩ = nexttag env f ⟨b, bs⟩ := by
  have hg : (⟨b, bs⟩ : RState).active.content[(⟨b, bs⟩ : RState).active.pos]? = none :=
    List.getElem?_eq_none (le_of_not_lt hb)
  exact nexttag_skip env f ⟨a, b :: bs⟩ ⟨b, bs⟩ ⟨b, bs⟩ ""
    (eof_check_pop _ ha b bs rfl) (nextline_none _ hg) (by decide) (by decide)

/-! ### C1: positional gauge accessor bounds -/

/-- C1: the claim says the accessors fail with the bounds `IndexOutOfRange`
error exactly when `i ≥ count`, in particular at `i = count`.  In the code
the guard is `i > count`: at `i = count` the guard passes and the key-list
lookup fails with Python's generic list `IndexError` instead of the bounds
error; the bounds error fires only for `i > count`.  This theorem
evaluates both accessors at a one-gauge reader: index 1 (= count) yields
the list-lookup error, index 2 the bounds error. -/
theorem imet_iobs_boundary_error_kind :
    imet ⟨[("A", ⟨["QObs"], [[some "1.0"]], none⟩)], []⟩ 1 = .error "list index out of range" ∧
    iobs ⟨[], [(5, ⟨["QObs"], [[some "1.0"]], none⟩)]⟩ 1 = .error "list index out of range" ∧
    imet ⟨[("A", ⟨["QObs"], [[some "1.0"]], none⟩)], []⟩ 2 =
      .error "Gauge index higher than number of gauges" := by
  decide

/-! ### C4: `get_datadist` and blank lines -/

/-- C4: the claim (and the function's own docstring) says counting stops at
a line that starts with the marker or is empty.  The `line == ''` check
compares the raw line, which always carries its terminator, so blank lines
are counted and scanning continues: on `["1.0", "", "2.0", ":End"]` the
code returns 3 (the claim implies 2).  The read position is restored. -/
theorem get_datadist_counts_blank_lines :
    get_datadist (canon ["1.0", "", "2.0", ":End"]) = (3, canon ["1.0", "", "2.0", ":End"]) := by
  decide

/-! ### C6: redirect-missing error message -/

/-- C6: the claim says the error identifies both the offending resolved
path and the issuing file.  The format string has a single placeholder, so
`str.format` drops the filename argument: the message produced for a
missing target contains the path but not the filename (`a.rvt`) of the
file that issued the redirect. -/
theorem redirect_error_message_omits_filename :
    nexttag ⟨[], "", "a.rvt"⟩ 2 (canon [":RedirectToFile missing"]) =
      some (.error "RedirectToFile path invalid: missing \nIn File:") ∧
    substrOccurs (chars "missing") (chars "RedirectToFile path invalid: missing \nIn File:") = true ∧
    substrOccurs (chars "a.rvt") (chars "RedirectToFile path invalid: missing \nIn File:") = false := by
  decide

/-! ### C9: `eof_check` -/

/-- C9 (amended): when the probe finds content the state (and hence the
read position) is unchanged and the result is `false`; when nothing
remains and the backburner is non-empty the stack is popped, the popped
handle becomes active and the result is `false` (whether or not the
resumed parent still has content — the original claim's "with the resumed
parent having more content to read" is not guaranteed, see the
counterexample); when nothing remains and the stack is empty the result is
`true`. -/
theorem eof_check_spec (s : RState) :
    (s.active.remaining ≠ [] → eof_check s = (false, s)) ∧
    (s.active.remaining = [] → ∀ b bs, s.backburner = b :: bs → eof_check s = (false, ⟨b, bs⟩)) ∧
    (s.active.remaining = [] → s.backburner = [] → eof_check s = (true, s)) := by
  have hrem : s.active.remaining = [] ↔ s.active.content.length ≤ s.active.pos := by
    simp [FHandle.remaining, List.drop_eq_nil_iff]
  refine ⟨fun h => ?_, fun h b bs hb => ?_, fun h hb => ?_⟩
  · exact eof_check_active s (lt_of_not_le (fun hle => h (hrem.mpr hle)))
  · exact eof_check_pop s (not_lt_of_le (hrem.mp h)) b bs hb
  · exact eof_check_eof s (not_lt_of_le (hrem.mp h)) hb

theorem eof_check_spec_witness :
    eof_check (canon [":A"]) = (false, canon [":A"]) ∧
    eof_check ⟨⟨["x"], 1⟩, [⟨["y"], 0⟩]⟩ = (false, ⟨⟨["y"], 0⟩, []⟩) ∧
    eof_check ⟨⟨["x"], 1⟩, []⟩ = (true, ⟨⟨["x"], 1⟩, []⟩) :=
  ⟨(eof_check_spec (canon [":A"])).1 (by decide),
   (eof_check_spec ⟨⟨["x"], 1⟩, [⟨["y"], 0⟩]⟩).2.1 (by decide) ⟨["y"], 0⟩ [] rfl,
   (eof_check_spec ⟨⟨["x"], 1⟩, []⟩).2.2 (by decide) rfl⟩

/-- C9 counterexample: the active handle is exhausted and the suspended
parent on the backburner is itself exhausted; `eof_check` still pops it
and returns `false`, although the resumed parent has nothing left to
read — refuting the claim's "with the resumed parent having more content
to read". -/
theorem eof_check_false_with_exhausted_parent :
    eof_check ⟨⟨["a"], 1⟩, [⟨["b"], 1⟩]⟩ = (false, ⟨⟨["b"], 1⟩, []⟩) ∧
    FHandle.remaining ⟨["b"], 1⟩ = [] := by
  decide

/-! ### C10: `nexttag` returns only non-redirect tag lines -/

/-- C10: every line value `nexttag` returns (as opposed to the `False`
EndOfInput result) starts with the marker `:` and is not a redirect
directive: redirect lines are consumed (or abort the pass) and non-tag
lines are skipped. -/
theorem nexttag_returns_only_tags (env : Env) :
    ∀ fuel s l s1, nexttag env fuel s = some (.ok (some l, s1)) →
      startsWithStr l ":" = true ∧ isRedirectLine l = false := by
  intro fuel
  induction fuel with
  | zero => intro s l s1 h; simp [nexttag] at h
  | succ f ih =>
    intro s l s1 h
    rcases he : eof_check s with ⟨eb, s'⟩
    cases eb with
    | true => rw [nexttag_eof env f s s' he] at h; simp at h
    | false =>
      rcases hn : nextline s' with ⟨ln, s2⟩
      cases hr : isRedirectLine ln with
      | true =>
        rcases hl : lookupFs env.fs (joinPath env.dir (redirectArg ln)) with _ | tl
        · rw [nexttag_redirect_missing env f s s' s2 ln he hn hr hl] at h; simp at h
        · rw [nexttag_redirect env f s s' s2 ln tl he hn hr hl] at h; exact ih _ _ _ h
      | false =>
        cases ht : startsWithStr ln ":" with
        | true =>
          rw [nexttag_tag env f s s' s2 ln he hn hr ht] at h
          simp only [Option.some_inj] at h
          cases h
          exact ⟨ht, hr⟩
        | false =>
          rw [nexttag_skip env f s s' s2 ln he hn hr ht] at h
          exact ih _ _ _ h

theorem nexttag_returns_only_tags_witness :
    startsWithStr ":A" ":" = true ∧ isRedirectLine ":A" = false :=
  nexttag_returns_only_tags ⟨[], "", "a"⟩ 1 (canon [":A"]) ":A" ⟨⟨[":A"], 1⟩, []⟩ (by decide)

/-! ### C5: `read_dateline` -/

theorem datelineParse_none_iff (l : String) :
    datelineParse l = none ↔
      ((splitWs l).length < 4 ∨
       parseDateTime (((splitWs l)[0]?).getD "") (((splitWs l)[1]?).getD "") = none ∨
       pyParseFloat (((splitWs l)[2]?).getD "") = none ∨
       pyParseInt (((splitWs l)[3]?).getD "") = none) := by
  rcases h : splitWs l with _ | ⟨a, _ | ⟨b, _ | ⟨c, _ | ⟨d, rest⟩⟩⟩⟩ <;>
    simp [datelineParse, h]
  rcases hdt : parseDateTime a b with _ | st <;>
    rcases hf : pyParseFloat c with _ | dl <;>
    rcases hi : pyParseInt d with _ | n <;>
    simp [hdt, hf, hi]
  exact iff_of_false (fun hall => hall dl.1 dl.2 rfl) (by omega)

theorem datelineParse_some_spec (l : String) (start delta : Int) (n : Int)
    (h : datelineParse l = some ((start, delta), n)) :
    4 ≤ (splitWs l).length ∧
    parseDateTime (((splitWs l)[0]?).getD "") (((splitWs l)[1]?).getD "") = some start ∧
    (∃ df, pyParseFloat (((splitWs l)[2]?).getD "") = some df ∧ delta = timedeltaOfDays df) ∧
    pyParseInt (((splitWs l)[3]?).getD "") = some n := by
  rcases hl : splitWs l with _ | ⟨a, _ | ⟨b, _ | ⟨c, _ | ⟨d, rest⟩⟩⟩⟩ <;>
    simp [datelineParse, hl] at h
  rcases hdt : parseDateTime a b with _ | st <;> rw [hdt] at h <;> simp at h
  rcases hf : pyParseFloat c with _ | df <;> rw [hf] at h <;> simp at h
  rcases hi : pyParseInt d with _ | m <;> rw [hi] at h <;> simp at h
  rcases h with ⟨⟨h1, h2⟩, h3⟩
  subst h1; subst h2; subst h3
  exact ⟨by simp only [List.length_cons]; omega, by simpa using hdt,
    ⟨df, by simpa using hf, rfl⟩, by simpa using hi⟩

/-- C5 (amended): `read_dateline` consumes exactly one line in every case
(the line is read before parsing begins), and the `MalformedDateLine`
outcome occurs exactly when the line tokenizes into fewer than four
whitespace-separated fields or one of the first four fields fails
date/numeric parsing — tokens beyond the fourth are ignored, so a line
with more than four fields does not fail (see the counterexample).  On
success the parsed `(start, step)` pair and integer count are returned. -/
theorem read_dateline_spec (s : RState) :
    (read_dateline s).2 = (nextline s).2 ∧
    (∀ lr, s.active.content[s.active.pos]? = some lr →
      (read_dateline s).2 = ⟨⟨s.active.content, s.active.pos + 1⟩, s.backburner⟩) ∧
    ((read_dateline s).1 = none ↔
      ((splitWs (nextline s).1).length < 4 ∨
       parseDateTime (((splitWs (nextline s).1)[0]?).getD "")
         (((splitWs (nextline s).1)[1]?).getD "") = none ∨
       pyParseFloat (((splitWs (nextline s).1)[2]?).getD "") = none ∨
       pyParseInt (((splitWs (nextline s).1)[3]?).getD "") = none)) ∧
    (∀ start delta n, (read_dateline s).1 = some ((start, delta), n) →
      4 ≤ (splitWs (nextline s).1).length ∧
      parseDateTime (((splitWs (nextline s).1)[0]?).getD "")
        (((splitWs (nextline s).1)[1]?).getD "") = some start ∧
      (∃ df, pyParseFloat (((splitWs (nextline s).1)[2]?).getD "") = some df ∧
        delta = timedeltaOfDays df) ∧
      pyParseInt (((splitWs (nextline s).1)[3]?).getD "") = some n) := by
  refine ⟨rfl, fun lr h => ?_, datelineParse_none_iff (nextline s).1,
    fun start delta n h => datelineParse_some_spec (nextline s).1 start delta n h⟩
  show (nextline s).2 = _
  rw [nextline_get s lr h]

theorem read_dateline_spec_witness :
    (read_dateline (canon ["2000-01-01 00:00:00 1.0 3"])).2 =
      ⟨⟨["2000-01-01 00:00:00 1.0 3"], 1⟩, []⟩ ∧
    (4 ≤ (splitWs (nextline (canon ["2000-01-01 00:00:00 1.0 3"])).1).length ∧
      parseDateTime (((splitWs (nextline (canon ["2000-01-01 00:00:00 1.0 3"])).1)[0]?).getD "")
        (((splitWs (nextline (canon ["2000-01-01 00:00:00 1.0 3"])).1)[1]?).getD "") =
        some 63082281600000000 ∧
      (∃ df, pyParseFloat
          (((splitWs (nextline (canon ["2000-01-01 00:00:00 1.0 3"])).1)[2]?).getD "") =
          some df ∧ (86400000000 : Int) = timedeltaOfDays df) ∧
      pyParseInt (((splitWs (nextline (canon ["2000-01-01 00:00:00 1.0 3"])).1)[3]?).getD "") =
        some 3) :=
  ⟨(read_dateline_spec (canon ["2000-01-01 00:00:00 1.0 3"])).2.1
      "2000-01-01 00:00:00 1.0 3" rfl,
   (read_dateline_spec (canon ["2000-01-01 00:00:00 1.0 3"])).2.2.2
      63082281600000000 86400000000 3 (by decide)⟩

/-- C5 counterexample: a date-step line with five fields does not tokenize
into exactly four fields, yet `read_dateline` succeeds (the extra token is
ignored) instead of failing with `MalformedDateLine`. -/
theorem read_dateline_five_tokens_succeeds :
    (splitWs "2000-01-01 00:00:00 1.0 3 EXTRA").length = 5 ∧
    (read_dateline (canon ["2000-01-01 00:00:00 1.0 3 EXTRA"])).1 =
      some ((63082281600000000, 86400000000), 3) := by
  decide

/-! ### C3, C7, C8: `read_RavenFrame` -/

theorem skiplines_of_le (n : Nat) (s : RState)
    (h : s.active.pos + n ≤ s.active.content.length) :
    skiplines n s = ⟨⟨s.active.content, s.active.pos + n⟩, s.backburner⟩ := by
  induction n generalizing s with
  | zero => simp [skiplines]
  | succ n ih =>
    have hlt : s.active.pos < s.active.content.length := by omega
    rw [skiplines]
    simp only [hlt, if_true]
    rw [ih ⟨⟨s.active.content, s.active.pos + 1⟩, s.backburner⟩
      (by show s.active.pos + 1 + n ≤ s.active.content.length; omega)]
    show (⟨⟨s.active.content, s.active.pos + 1 + n⟩, s.backburner⟩ : RState) = _
    rw [show s.active.pos + 1 + n = s.active.pos + (n + 1) from by omega]

theorem filter_take_of_all (p : String → Bool) (L : List String) (N : Nat)
    (h : ∀ l ∈ L.take N, p l = true) (hle : N ≤ L.length) :
    (L.filter p).take N = L.take N := by
  conv_lhs => rw [← List.take_append_drop N L]
  rw [List.filter_append, List.filter_eq_self.mpr h]
  have hlen : (L.take N).length = N := by
    simp [List.length_take]; omega
  rw [List.take_append_eq_append_take, hlen, Nat.sub_self, List.take_zero,
    List.append_nil, List.take_of_length_le (le_of_eq hlen)]

theorem pandasParse_rows_length (isC : Bool) (names : Option (List String)) (N : Nat)
    (na : String) (buffer : List String) (cols : List String)
    (rows : List (List (Option String)))
    (hok : pandasParse isC names N na buffer = .ok (cols, rows))
    (hblank : ∀ l ∈ buffer.take N, isBlankLine l = false)
    (hle : N ≤ buffer.length) :
    rows.length = N := by
  have hFt : (buffer.filter (fun l => !(isBlankLine l))).take N = buffer.take N :=
    filter_take_of_all _ buffer N (fun l hl => by simp [hblank l hl]) hle
  have hFlen : N ≤ (buffer.filter (fun l => !(isBlankLine l))).length := by
    have := congrArg List.length hFt
    simp only [List.length_take] at this
    omega
  rcases hF : buffer.filter (fun l => !(isBlankLine l)) with _ | ⟨first, rest⟩ <;>
    simp only [pandasParse, hF] at hok
  · exact absurd hok (by simp)
  · rw [hF] at hFlen
    repeat' split at hok
    all_goals
      first
        | exact Except.noConfusion hok
        | (simp only [Except.ok.injEq, Prod.mk.injEq] at hok
           rw [← hok.2, List.length_map, List.length_map, List.length_take]
           omega)

/-- C3 (amended): whenever `read_RavenFrame` returns normally with row
count `N` (the explicit hint, or the measured block length), at least `N`
lines follow the header, and **none of those `N` lines is blank** (pandas
skips blank lines without counting them toward `nrows`, so a blank line
in the block shrinks the parsed row set below `N`: see the
counterexample), exactly `N` data rows are parsed, and the returned
state's read position is exactly `N` lines past the post-header position
on the same active handle with the same backburner stack — regardless of
where row parsing moved the cursor internally (the decoder seeks back to
the post-header position and then skips exactly `N` lines). -/
theorem read_RavenFrame_cursor_contract (env : Env) (fuel : Nat) (nv : Option Nat)
    (header : Bool) (names : Option (List String)) (id_col : Bool)
    (time_tuple : Option (Int × Int)) (na : String) (s s1 s2 : RState)
    (ps : Option (List String)) (us0 us : List String) (fr : RavenFrame) (N : Nat)
    (hh : headerPhase env fuel header names id_col s = some (.ok (ps, us0, s1)))
    (hres : read_RavenFrame env fuel nv header names id_col time_tuple na s =
      some (.ok ((fr, us), s2)))
    (hN : N = resolvedRowCount nv s1)
    (hle : N ≤ s1.active.remaining.length)
    (hblank : ∀ l ∈ s1.active.remaining.take N, isBlankLine l = false) :
    fr.rows.length = N ∧
    s2.active.content = s1.active.content ∧
    s2.active.pos = s1.active.pos + N ∧
    s2.backburner = s1.backburner := by
  simp only [read_RavenFrame, hh] at hres
  rw [← hN] at hres
  rcases hp : pandasParse (comma_detector s1).1 ps N na s1.active.remaining with e | ⟨cols, rows⟩ <;>
    rw [hp] at hres
  · simp at hres
  have hrl : rows.length = N :=
    pandasParse_rows_length (comma_detector s1).1 ps N na s1.active.remaining cols rows hp
      hblank hle
  have hlen : s1.active.remaining.length = s1.active.content.length - s1.active.pos := by
    simp [FHandle.remaining]
  have hrest : (skiplines N ⟨⟨s1.active.content, s1.active.pos⟩, s1.backburner⟩).active.content
        = s1.active.content ∧
      (skiplines N ⟨⟨s1.active.content, s1.active.pos⟩, s1.backburner⟩).active.pos
        = s1.active.pos + N ∧
      (skiplines N ⟨⟨s1.active.content, s1.active.pos⟩, s1.backburner⟩).backburner
        = s1.backburner := by
    by_cases hq : s1.active.pos + N ≤ s1.active.content.length
    · rw [skiplines_of_le N ⟨⟨s1.active.content, s1.active.pos⟩, s1.backburner⟩ (by simpa using hq)]
      exact ⟨rfl, rfl, rfl⟩
    · have hN0 : N = 0 := by omega
      subst hN0
      rw [skiplines]
      exact ⟨rfl, by show s1.active.pos = s1.active.pos + 0; omega, rfl⟩
  rcases time_tuple with _ | td
  · simp only [Option.some_inj, Except.ok.injEq, Prod.mk.injEq] at hres
    rcases hres with ⟨⟨hfr, hus⟩, hs2⟩
    subst hfr; subst hs2
    exact ⟨hrl, hrest⟩
  · simp only [hrl, eq_self_iff_true, if_true, Option.some_inj, Except.ok.injEq,
      Prod.mk.injEq] at hres
    rcases hres with ⟨⟨hfr, hus⟩, hs2⟩
    subst hfr; subst hs2
    exact ⟨hrl, hrest⟩

theorem read_RavenFrame_cursor_contract_witness :
    (RavenFrame.mk ["0"] [[some "1.0"], [some "2.0"]] none).rows.length = 2 ∧
    (RState.mk ⟨["1.0", "2.0"], 2⟩ []).active.content = (canon ["1.0", "2.0"]).active.content ∧
    (RState.mk ⟨["1.0", "2.0"], 2⟩ []).active.pos = (canon ["1.0", "2.0"]).active.pos + 2 ∧
    (RState.mk ⟨["1.0", "2.0"], 2⟩ []).backburner = (canon ["1.0", "2.0"]).backburner :=
  read_RavenFrame_cursor_contract ⟨[], "", "a"⟩ 1 (some 2) false none false none "-1.2345"
    (canon ["1.0", "2.0"]) (canon ["1.0", "2.0"]) ⟨⟨["1.0", "2.0"], 2⟩, []⟩
    none [] [] ⟨["0"], [[some "1.0"], [some "2.0"]], none⟩ 2
    (by decide) (by decide) rfl (by decide) (by decide)

/-- C3 counterexample: the decoder does **not** always parse exactly
`rowCount` rows.  With row-count hint 2 on the block `["1.0", ""]`,
pandas skips the blank second line (`skip_blank_lines=True`), so the call
returns normally with only **one** parsed row — yet the cursor is still
moved 2 lines forward.  The "exactly rowCount data rows are parsed"
conjunct of the claim is therefore false without a no-blank-line
condition on the block. -/
theorem cursor_contract_blank_counterexample :
    read_RavenFrame ⟨[], "", "a"⟩ 1 (some 2) false none false none "-1.2345"
        (canon ["1.0", ""]) =
      some (.ok ((⟨["0"], [[some "1.0"]], none⟩, []), ⟨⟨["1.0", ""], 2⟩, []⟩)) ∧
    ([[some "1.0"]] : List (List (Option String))).length ≠ 2 := by
  decide

/-- C7: when a date-step descriptor `(start, delta)` is supplied and the
decoder returns normally with row count `N`, the generated instant
sequence is attached as the table's index (replacing the default ordinal
index), it has exactly `N` entries, entry 0 is `start`, entry `k` is
`start + k·delta`, and it is strictly increasing when the step is
positive. -/
theorem read_RavenFrame_date_index (env : Env) (fuel : Nat) (nv : Option Nat)
    (header : Bool) (names : Option (List String)) (id_col : Bool) (na : String)
    (s s1 s2 : RState) (ps : Option (List String)) (us0 us : List String)
    (start delta : Int) (fr : RavenFrame) (N : Nat)
    (hh : headerPhase env fuel header names id_col s = some (.ok (ps, us0, s1)))
    (hres : read_RavenFrame env fuel nv header names id_col (some (start, delta)) na s =
      some (.ok ((fr, us), s2)))
    (hN : N = resolvedRowCount nv s1) :
    fr.index = some (dateIndex start delta N) ∧
    (dateIndex start delta N).length = N ∧
    (0 < N → (dateIndex start delta N)[0]? = some start) ∧
    (∀ k, k < N → (dateIndex start delta N)[k]? = some (start + delta * k)) ∧
    (0 < delta → (dateIndex start delta N).Pairwise (· < ·)) := by
  simp only [read_RavenFrame, hh] at hres
  rw [← hN] at hres
  rcases hp : pandasParse (comma_detector s1).1 ps N na s1.active.remaining with e | ⟨cols, rows⟩ <;>
    rw [hp] at hres
  · simp at hres
  by_cases hrl : rows.length = N
  · simp only [hrl, eq_self_iff_true, if_true, Option.some_inj, Except.ok.injEq,
      Prod.mk.injEq] at hres
    rcases hres with ⟨⟨hfr, hus⟩, hs2⟩
    subst hfr
    have hget : ∀ k, k < N → (dateIndex start delta N)[k]? = some (start + delta * k) := by
      intro k hk
      simp only [dateIndex]
      rw [List.getElem?_map, List.getElem?_range hk]
      rfl
    refine ⟨rfl, by simp [dateIndex], fun h0 => by simpa using hget 0 h0, hget, fun hd => ?_⟩
    have hrange : (List.range N).Pairwise (· < ·) := List.pairwise_lt_range N
    exact List.Pairwise.map _ (fun a b hab =>
      add_lt_add_left (mul_lt_mul_of_pos_left (by exact_mod_cast hab) hd) start) hrange
  · simp [hrl] at hres

theorem read_RavenFrame_date_index_witness :
    (RavenFrame.mk ["0"] [[some "1.0"], [some "2.0"]] (some [0, 86400000000])).index =
      some (dateIndex 0 86400000000 2) ∧
    (dateIndex 0 86400000000 2).length = 2 ∧
    (0 < 2 → (dateIndex 0 86400000000 2)[(0 : Nat)]? = some 0) ∧
    (∀ (k : Nat), k < 2 → (dateIndex 0 86400000000 2)[k]? = some (0 + 86400000000 * (k : Int))) ∧
    (0 < (86400000000 : Int) → (dateIndex 0 86400000000 2).Pairwise (· < ·)) :=
  read_RavenFrame_date_index ⟨[], "", "a"⟩ 1 (some 2) false none false "-1.2345"
    (canon ["1.0", "2.0"]) (canon ["1.0", "2.0"]) ⟨⟨["1.0", "2.0"], 2⟩, []⟩
    none [] [] 0 86400000000
    ⟨["0"], [[some "1.0"], [some "2.0"]], some [0, 86400000000]⟩ 2
    (by decide) (by decide) rfl

theorem virt_pop (a b : FHandle) (bs : List FHandle) (ha : ¬ a.pos < a.content.length) :
    virt ⟨a, b :: bs⟩ = virt ⟨b, bs⟩ := by
  have : a.remaining = [] := by
    simp [FHandle.remaining, List.drop_eq_nil_iff]
    omega
  simp [virt, this]

theorem virt_cons (s : RState) (l : String) (h : s.active.content[s.active.pos]? = some l) :
    virt s = l :: virt ⟨⟨s.active.content, s.active.pos + 1⟩, s.backburner⟩ := by
  obtain ⟨hlt, hl⟩ := List.getElem?_eq_some.mp h
  simp only [virt, FHandle.remaining]
  rw [List.drop_eq_getElem_cons hlt, hl]
  rfl

theorem virt_push (tl : List String) (s : RState) :
    virt ⟨⟨tl, 0⟩, s.active :: s.backburner⟩ = tl ++ virt s := by
  simp [virt, FHandle.remaining, List.append_assoc]

theorem virt_popAllAux : ∀ (bs : List FHandle) (a : FHandle),
    virt (popAllAux a bs) = virt ⟨a, bs⟩ := by
  intro bs
  induction bs with
  | nil => intro a; rfl
  | cons b bs ih =>
    intro a
    rw [popAllAux]
    by_cases ha : a.pos < a.content.length
    · rw [if_pos ha]
    · rw [if_neg ha, ih b, virt_pop a b bs ha]

theorem popAllAux_shape : ∀ (bs : List FHandle) (a : FHandle),
    (popAllAux a bs).active.pos < (popAllAux a bs).active.content.length ∨
    (¬ (popAllAux a bs).active.pos < (popAllAux a bs).active.content.length ∧
      (popAllAux a bs).backburner = []) := by
  intro bs
  induction bs with
  | nil =>
    intro a
    by_cases ha : a.pos < a.content.length
    · exact Or.inl ha
    · exact Or.inr ⟨ha, rfl⟩
  | cons b bs ih =>
    intro a
    rw [popAllAux]
    by_cases ha : a.pos < a.content.length
    · rw [if_pos ha]; exact Or.inl ha
    · rw [if_neg ha]; exact ih b

theorem nexttag_popAllAux (env : Env) : ∀ (bs : List FHandle) (a : FHandle) (f : Nat) r,
    nexttag env f ⟨a, bs⟩ = some r →
    ∃ g, g ≤ f ∧ nexttag env g (popAllAux a bs) = some r := by
  intro bs
  induction bs with
  | nil => intro a f r h; exact ⟨f, le_refl f, h⟩
  | cons b bs ih =>
    intro a f r h
    by_cases ha : a.pos < a.content.length
    · rw [popAllAux, if_pos ha]; exact ⟨f, le_refl f, h⟩
    · rw [popAllAux, if_neg ha]
      cases f with
      | zero => rw [nexttag_zero] at h; cases h
      | succ f =>
        by_cases hb : b.pos < b.content.length
        · rw [nexttag_pop_exposed env (f + 1) a b bs ha hb] at h
          exact ih b (f + 1) r h
        · rw [nexttag_pop_unexposed env f a b bs ha hb] at h
          obtain ⟨g, hg, h2⟩ := ih b f r h
          exact ⟨g, le_trans hg (Nat.le_succ f), h2⟩

theorem nexttag_popAllAux_rev (env : Env) : ∀ (bs : List FHandle) (a : FHandle) (g : Nat) r,
    nexttag env g (popAllAux a bs) = some r →
    ∃ f, nexttag env f ⟨a, bs⟩ = some r := by
  intro bs
  induction bs with
  | nil => intro a g r h; exact ⟨g, h⟩
  | cons b bs ih =>
    intro a g r h
    by_cases ha : a.pos < a.content.length
    · rw [popAllAux, if_pos ha] at h; exact ⟨g, h⟩
    · rw [popAllAux, if_neg ha] at h
      obtain ⟨f, hf⟩ := ih b g r h
      by_cases hb : b.pos < b.content.length
      · exact ⟨f, by rw [nexttag_pop_exposed env f a b bs ha hb]; exact hf⟩
      · exact ⟨f + 1, by rw [nexttag_pop_unexposed env f a b bs ha hb]; exact hf⟩

theorem nexttag_mono (env : Env) : ∀ (f : Nat) (s : RState) r,
    nexttag env f s = some r → nexttag env (f + 1) s = some r := by
  intro f
  induction f with
  | zero => intro s r h; rw [nexttag_zero] at h; cases h
  | succ f ih =>
    intro s r h
    rcases he : eof_check s with ⟨eb, s1⟩
    cases eb with
    | true =>
      rw [nexttag_eof env f s s1 he] at h
      rw [nexttag_eof env (f + 1) s s1 he]
      exact h
    | false =>
      rcases hn : nextline s1 with ⟨l, s2⟩
      cases hr : isRedirectLine l with
      | true =>
        rcases hl : lookupFs env.fs (joinPath env.dir (redirectArg l)) with _ | tl
        · rw [nexttag_redirect_missing env f s s1 s2 l he hn hr hl] at h
          rw [nexttag_redirect_missing env (f + 1) s s1 s2 l he hn hr hl]
          exact h
        · rw [nexttag_redirect env f s s1 s2 l tl he hn hr hl] at h
          rw [nexttag_redirect env (f + 1) s s1 s2 l tl he hn hr hl]
          exact ih _ _ h
      | false =>
        cases ht : startsWithStr l ":" with
        | true =>
          rw [nexttag_tag env f s s1 s2 l he hn hr ht] at h
          rw [nexttag_tag env (f + 1) s s1 s2 l he hn hr ht]
          exact h
        | false =>
          rw [nexttag_skip env f s s1 s2 l he hn hr ht] at h
          rw [nexttag_skip env (f + 1) s s1 s2 l he hn hr ht]
          exact ih _ _ h

theorem nexttag_mono_le (env : Env) : ∀ (g f : Nat), f ≤ g → ∀ (s : RState) r,
    nexttag env f s = some r → nexttag env g s = some r := by
  intro g
  induction g with
  | zero => intro f hfg s r h; exact (Nat.le_zero.mp hfg) ▸ h
  | succ g ih =>
    intro f hfg s r h
    rcases Nat.lt_or_ge f (g + 1) with hlt | hge
    · exact nexttag_mono env g s r (ih f (Nat.lt_succ_iff.mp hlt) s r h)
    · have hfe : f = g + 1 := Nat.le_antisymm hfg hge
      rw [← hfe]
      exact h

/-- One `nexttag` call is determined, up to observable matching, by the
virtual line stream: runs from states with equal virtual streams return
matching results (same fuel is not required — the number of transparent
pops may differ). -/
theorem nexttag_sim (env : Env) : ∀ (f : Nat) (s1 : RState) r,
    nexttag env f s1 = some r → ∀ (s2 : RState), virt s1 = virt s2 →
    ∃ g r2, nexttag env g s2 = some r2 ∧ MatchRes r r2 := by
  intro f
  induction f using Nat.strong_induction_on with
  | _ f IH =>
  intro s1 r h s2 hv
  obtain ⟨g1, hg1, h1⟩ := nexttag_popAllAux env s1.backburner s1.active f r h
  obtain ⟨n1, hn1⟩ : ∃ n1, popAllAux s1.active s1.backburner = n1 := ⟨_, rfl⟩
  rw [hn1] at h1
  have hv1 : virt n1 = virt s1 := by rw [← hn1]; exact virt_popAllAux s1.backburner s1.active
  obtain ⟨n2, hn2⟩ : ∃ n2, popAllAux s2.active s2.backburner = n2 := ⟨_, rfl⟩
  have hv2 : virt n2 = virt s2 := by rw [← hn2]; exact virt_popAllAux s2.backburner s2.active
  have hsh1 := popAllAux_shape s1.backburner s1.active
  have hsh2 := popAllAux_shape s2.backburner s2.active
  rw [hn1] at hsh1
  rw [hn2] at hsh2
  suffices hsuf : ∃ g r2, nexttag env g n2 = some r2 ∧ MatchRes r r2 by
    obtain ⟨g, r2, hrun, hm⟩ := hsuf
    rw [← hn2] at hrun
    obtain ⟨f2, hf2⟩ := nexttag_popAllAux_rev env s2.backburner s2.active g r2 hrun
    exact ⟨f2, r2, hf2, hm⟩
  rcases hsh1 with hex1 | ⟨hne1, hbb1⟩
  · -- the normalized source state has a line to read
    obtain ⟨lraw, hget1⟩ : ∃ l, n1.active.content[n1.active.pos]? = some l :=
      ⟨_, List.getElem?_eq_getElem hex1⟩
    have hcons1 := virt_cons n1 lraw hget1
    rcases hsh2 with hex2 | ⟨hne2, hbb2⟩
    · obtain ⟨lraw2, hget2⟩ : ∃ l, n2.active.content[n2.active.pos]? = some l :=
        ⟨_, List.getElem?_eq_getElem hex2⟩
      have hcons2 := virt_cons n2 lraw2 hget2
      have hchain : lraw :: virt ⟨⟨n1.active.content, n1.active.pos + 1⟩, n1.backburner⟩ =
          lraw2 :: virt ⟨⟨n2.active.content, n2.active.pos + 1⟩, n2.backburner⟩ := by
        rw [← hcons1, ← hcons2, hv1, hv2, hv]
      injection hchain with hl_eq hrest_eq
      subst hl_eq
      have he1 : eof_check n1 = (false, n1) := eof_check_active n1 hex1
      have he2 : eof_check n2 = (false, n2) := eof_check_active n2 hex2
      have hnl1 : nextline n1 =
          (strip lraw, ⟨⟨n1.active.content, n1.active.pos + 1⟩, n1.backburner⟩) :=
        nextline_get n1 lraw hget1
      have hnl2 : nextline n2 =
          (strip lraw, ⟨⟨n2.active.content, n2.active.pos + 1⟩, n2.backburner⟩) :=
        nextline_get n2 lraw hget2
      cases hr : isRedirectLine (strip lraw) with
      | true =>
        rcases hl : lookupFs env.fs (joinPath env.dir (redirectArg (strip lraw))) with _ | tl
        · cases g1 with
          | zero => rw [nexttag_zero] at h1; cases h1
          | succ g1 =>
            rw [nexttag_redirect_missing env g1 n1 n1 _ (strip lraw) he1 hnl1 hr hl] at h1
            have hre := Option.some.inj h1
            subst hre
            refine ⟨1, _, nexttag_redirect_missing env 0 n2 n2 _ (strip lraw) he2 hnl2 hr hl, ?_⟩
            exact rfl
        · cases g1 with
          | zero => rw [nexttag_zero] at h1; cases h1
          | succ g1 =>
            rw [nexttag_redirect env g1 n1 n1 _ (strip lraw) tl he1 hnl1 hr hl] at h1
            have hvp : virt (⟨⟨tl, 0⟩,
                (⟨⟨n1.active.content, n1.active.pos + 1⟩, n1.backburner⟩ : RState).active ::
                (⟨⟨n1.active.content, n1.active.pos + 1⟩, n1.backburner⟩ : RState).backburner⟩ : RState) =
              virt (⟨⟨tl, 0⟩,
                (⟨⟨n2.active.content, n2.active.pos + 1⟩, n2.backburner⟩ : RState).active ::
                (⟨⟨n2.active.content, n2.active.pos + 1⟩, n2.backburner⟩ : RState).backburner⟩ : RState) := by
              rw [virt_push tl ⟨⟨n1.active.content, n1.active.pos + 1⟩, n1.backburner⟩,
                virt_push tl ⟨⟨n2.active.content, n2.active.pos + 1⟩, n2.backburner⟩, hrest_eq]
            obtain ⟨g2, r2, h2, hm⟩ := IH g1 (by omega) _ r h1 _ hvp
            refine ⟨g2 + 1, r2, ?_, hm⟩
            rw [nexttag_redirect env g2 n2 n2 _ (strip lraw) tl he2 hnl2 hr hl]
            exact h2
      | false =>
        cases ht : startsWithStr (strip lraw) ":" with
        | true =>
          cases g1 with
          | zero => rw [nexttag_zero] at h1; cases h1
          | succ g1 =>
            rw [nexttag_tag env g1 n1 n1 _ (strip lraw) he1 hnl1 hr ht] at h1
            have hre := Option.some.inj h1
            subst hre
            refine ⟨1, _, nexttag_tag env 0 n2 n2 _ (strip lraw) he2 hnl2 hr ht, ?_⟩
            exact ⟨rfl, hrest_eq⟩
        | false =>
          cases g1 with
          | zero => rw [nexttag_zero] at h1; cases h1
          | succ g1 =>
            rw [nexttag_skip env g1 n1 n1 _ (strip lraw) he1 hnl1 hr ht] at h1
            obtain ⟨g2, r2, h2, hm⟩ := IH g1 (by omega) _ r h1 _ hrest_eq
            refine ⟨g2 + 1, r2, ?_, hm⟩
            rw [nexttag_skip env g2 n2 n2 _ (strip lraw) he2 hnl2 hr ht]
            exact h2
    · -- source stream empty, target claims a line: impossible unless both empty
      exfalso
      have hrem2 : n2.active.remaining = [] := by
        simp [FHandle.remaining, List.drop_eq_nil_iff]
        omega
      have hnil2 : virt n2 = [] := by simp [virt, hrem2, hbb2]
      have : virt n1 = [] := by rw [hv1, hv, ← hv2, hnil2]
      rw [hcons1] at this
      cases this
  · -- source exhausted: EOF on both sides
    have hrem1 : n1.active.remaining = [] := by
      simp [FHandle.remaining, List.drop_eq_nil_iff]
      omega
    have hnil1 : virt n1 = [] := by simp [virt, hrem1, hbb1]
    have hnil2 : virt n2 = [] := by rw [hv2, ← hv, ← hv1, hnil1]
    rcases hsh2 with hex2 | ⟨hne2, hbb2⟩
    · exfalso
      obtain ⟨lraw2, hget2⟩ : ∃ l, n2.active.content[n2.active.pos]? = some l :=
        ⟨_, List.getElem?_eq_getElem hex2⟩
      have hcons2 := virt_cons n2 lraw2 hget2
      rw [hnil2] at hcons2
      cases hcons2
    · cases g1 with
      | zero => rw [nexttag_zero] at h1; cases h1
      | succ g1 =>
        rw [nexttag_eof env g1 n1 n1 (eof_check_eof n1 hne1 hbb1)] at h1
        have hre := Option.some.inj h1
        subst hre
        refine ⟨1, .ok (none, n2), nexttag_eof env 0 n2 n2 (eof_check_eof n2 hne2 hbb2), ?_⟩
        exact trivial

theorem matchRes_symm : ∀ r1 r2, MatchRes r1 r2 → MatchRes r2 r1 := by
  intro r1 r2 h
  rcases r1 with m1 | ⟨_ | l1, a1⟩ <;> rcases r2 with m2 | ⟨_ | l2, a2⟩
  all_goals first
    | exact Eq.symm h
    | exact False.elim h
    | exact trivial
    | exact ⟨h.1.symm, h.2.symm⟩

theorem matchRes_matchC (t : String) (tl : List String) :
    ∀ r1 r2, MatchRes r1 r2 → MatchC t tl r1 r2 := by
  intro r1 r2 h
  rcases r1 with m1 | ⟨_ | l1, a1⟩ <;> rcases r2 with m2 | ⟨_ | l2, a2⟩
  all_goals first
    | exact h
    | exact False.elim h
    | exact trivial
    | exact ⟨h.1, Or.inl h.2⟩

/-- Crossing lemma, forward direction: a completed `nexttag` run on a
stream containing a resolvable redirect line `t` is matched by a run on
the stream with the target's lines `tl` inlined in its place. -/
theorem nexttag_cross (env : Env) (t : String) (tl : List String)
    (hred : isRedirectLine (strip t) = true)
    (harg : lookupFs env.fs (joinPath env.dir (redirectArg (strip t))) = some tl) :
    ∀ (f : Nat) (s1 : RState) r, nexttag env f s1 = some r →
    ∀ (s2 : RState) (p q : List String), virt s1 = p ++ t :: q → virt s2 = p ++ tl ++ q →
    ∃ g r2, nexttag env g s2 = some r2 ∧ MatchC t tl r r2 := by
  intro f
  induction f using Nat.strong_induction_on with
  | _ f IH =>
  intro s1 r h s2 p q hvs1 hvs2
  obtain ⟨g1, hg1, h1⟩ := nexttag_popAllAux env s1.backburner s1.active f r h
  obtain ⟨n1, hn1⟩ : ∃ n1, popAllAux s1.active s1.backburner = n1 := ⟨_, rfl⟩
  rw [hn1] at h1
  have hv1 : virt n1 = virt s1 := by rw [← hn1]; exact virt_popAllAux s1.backburner s1.active
  obtain ⟨n2, hn2⟩ : ∃ n2, popAllAux s2.active s2.backburner = n2 := ⟨_, rfl⟩
  have hv2 : virt n2 = virt s2 := by rw [← hn2]; exact virt_popAllAux s2.backburner s2.active
  have hsh1 := popAllAux_shape s1.backburner s1.active
  have hsh2 := popAllAux_shape s2.backburner s2.active
  rw [hn1] at hsh1
  rw [hn2] at hsh2
  suffices hsuf : ∃ g r2, nexttag env g n2 = some r2 ∧ MatchC t tl r r2 by
    obtain ⟨g, r2, hrun, hm⟩ := hsuf
    rw [← hn2] at hrun
    obtain ⟨f2, hf2⟩ := nexttag_popAllAux_rev env s2.backburner s2.active g r2 hrun
    exact ⟨f2, r2, hf2, hm⟩
  rcases hsh1 with hex1 | ⟨hne1, hbb1⟩
  · obtain ⟨lraw, hget1⟩ : ∃ l, n1.active.content[n1.active.pos]? = some l :=
      ⟨_, List.getElem?_eq_getElem hex1⟩
    have hcons1 := virt_cons n1 lraw hget1
    have he1 : eof_check n1 = (false, n1) := eof_check_active n1 hex1
    have hnl1 : nextline n1 =
        (strip lraw, ⟨⟨n1.active.content, n1.active.pos + 1⟩, n1.backburner⟩) :=
      nextline_get n1 lraw hget1
    rcases p with _ | ⟨lh, p'⟩
    · -- the head of the source stream is the redirect line itself
      have hhead : lraw :: virt ⟨⟨n1.active.content, n1.active.pos + 1⟩, n1.backburner⟩ =
          t :: q := by rw [← hcons1, hv1, hvs1]; rfl
      injection hhead with hl_eq hrest_eq
      rw [hl_eq] at hget1 hnl1
      cases g1 with
      | zero => rw [nexttag_zero] at h1; cases h1
      | succ g1 =>
        rw [nexttag_redirect env g1 n1 n1 _ (strip t) tl he1 hnl1 hred harg] at h1
        have hvp : virt (⟨⟨tl, 0⟩,
            (⟨⟨n1.active.content, n1.active.pos + 1⟩, n1.backburner⟩ : RState).active ::
            (⟨⟨n1.active.content, n1.active.pos + 1⟩, n1.backburner⟩ : RState).backburner⟩ :
              RState) = virt n2 := by
          rw [virt_push tl ⟨⟨n1.active.content, n1.active.pos + 1⟩, n1.backburner⟩,
            hrest_eq, hv2, hvs2]
          rfl
        obtain ⟨g2, r2, h2, hm⟩ := nexttag_sim env g1 _ r h1 n2 hvp
        exact ⟨g2, r2, h2, matchRes_matchC t tl r r2 hm⟩
    · -- a shared prefix line is at the head of both streams
      have hhead : lraw :: virt ⟨⟨n1.active.content, n1.active.pos + 1⟩, n1.backburner⟩ =
          lh :: (p' ++ t :: q) := by rw [← hcons1, hv1, hvs1]; rfl
      injection hhead with hl_eq hrest1
      rw [hl_eq] at hget1 hnl1
      rcases hsh2 with hex2 | ⟨hne2, hbb2⟩
      · obtain ⟨lraw2, hget2⟩ : ∃ l, n2.active.content[n2.active.pos]? = some l :=
          ⟨_, List.getElem?_eq_getElem hex2⟩
        have hcons2 := virt_cons n2 lraw2 hget2
        have hhead2 : lraw2 :: virt ⟨⟨n2.active.content, n2.active.pos + 1⟩, n2.backburner⟩ =
            lh :: (p' ++ tl ++ q) := by
          rw [← hcons2, hv2, hvs2]
          rfl
        injection hhead2 with hl_eq2 hrest2
        rw [hl_eq2] at hget2
        have he2 : eof_check n2 = (false, n2) := eof_check_active n2 hex2
        have hnl2 : nextline n2 =
            (strip lh, ⟨⟨n2.active.content, n2.active.pos + 1⟩, n2.backburner⟩) :=
          nextline_get n2 lh hget2
        cases hr : isRedirectLine (strip lh) with
        | true =>
          rcases hl : lookupFs env.fs (joinPath env.dir (redirectArg (strip lh))) with _ | tl'
          · cases g1 with
            | zero => rw [nexttag_zero] at h1; cases h1
            | succ g1 =>
              rw [nexttag_redirect_missing env g1 n1 n1 _ (strip lh) he1 hnl1 hr hl] at h1
              have hre := Option.some.inj h1
              subst hre
              refine ⟨1, _, nexttag_redirect_missing env 0 n2 n2 _ (strip lh) he2 hnl2 hr hl, ?_⟩
              exact rfl
          · cases g1 with
            | zero => rw [nexttag_zero] at h1; cases h1
            | succ g1 =>
              rw [nexttag_redirect env g1 n1 n1 _ (strip lh) tl' he1 hnl1 hr hl] at h1
              have hvp1 : virt (⟨⟨tl', 0⟩,
                  (⟨⟨n1.active.content, n1.active.pos + 1⟩, n1.backburner⟩ : RState).active ::
                  (⟨⟨n1.active.content, n1.active.pos + 1⟩, n1.backburner⟩ : RState).backburner⟩ :
                    RState) = (tl' ++ p') ++ t :: q := by
                rw [virt_push tl' ⟨⟨n1.active.content, n1.active.pos + 1⟩, n1.backburner⟩, hrest1,
                  List.append_assoc]
              have hvp2 : virt (⟨⟨tl', 0⟩,
                  (⟨⟨n2.active.content, n2.active.pos + 1⟩, n2.backburner⟩ : RState).active ::
                  (⟨⟨n2.active.content, n2.active.pos + 1⟩, n2.backburner⟩ : RState).backburner⟩ :
                    RState) = (tl' ++ p') ++ tl ++ q := by
                rw [virt_push tl' ⟨⟨n2.active.content, n2.active.pos + 1⟩, n2.backburner⟩, hrest2]
                simp [List.append_assoc]
              obtain ⟨g2, r2, h2, hm⟩ := IH g1 (by omega) _ r h1 _ (tl' ++ p') q hvp1 hvp2
              refine ⟨g2 + 1, r2, ?_, hm⟩
              rw [nexttag_redirect env g2 n2 n2 _ (strip lh) tl' he2 hnl2 hr hl]
              exact h2
        | false =>
          cases ht : startsWithStr (strip lh) ":" with
          | true =>
            cases g1 with
            | zero => rw [nexttag_zero] at h1; cases h1
            | succ g1 =>
              rw [nexttag_tag env g1 n1 n1 _ (strip lh) he1 hnl1 hr ht] at h1
              have hre := Option.some.inj h1
              subst hre
              refine ⟨1, _, nexttag_tag env 0 n2 n2 _ (strip lh) he2 hnl2 hr ht, ?_⟩
              exact ⟨rfl, Or.inr ⟨p', q, hrest1, hrest2⟩⟩
          | false =>
            cases g1 with
            | zero => rw [nexttag_zero] at h1; cases h1
            | succ g1 =>
              rw [nexttag_skip env g1 n1 n1 _ (strip lh) he1 hnl1 hr ht] at h1
              obtain ⟨g2, r2, h2, hm⟩ := IH g1 (by omega) _ r h1 _ p' q hrest1 hrest2
              refine ⟨g2 + 1, r2, ?_, hm⟩
              rw [nexttag_skip env g2 n2 n2 _ (strip lh) he2 hnl2 hr ht]
              exact h2
      · -- target exhausted but its stream is non-empty: impossible
        exfalso
        have hrem2 : n2.active.remaining = [] := by
          simp [FHandle.remaining, List.drop_eq_nil_iff]
          omega
        have hnil2 : virt n2 = [] := by simp [virt, hrem2, hbb2]
        rw [hv2, hvs2] at hnil2
        cases hnil2
  · -- source exhausted but its stream contains the redirect line: impossible
    exfalso
    have hrem1 : n1.active.remaining = [] := by
      simp [FHandle.remaining, List.drop_eq_nil_iff]
      omega
    have hnil1 : virt n1 = [] := by simp [virt, hrem1, hbb1]
    rw [hv1, hvs1] at hnil1
    rcases p with _ | ⟨lh, p'⟩ <;> cases hnil1

/-- Crossing lemma, backward direction: a completed `nexttag` run on the
inlined stream is matched by a run on the stream still containing the
redirect line. -/
theorem nexttag_cross_bwd (env : Env) (t : String) (tl : List String)
    (hred : isRedirectLine (strip t) = true)
    (harg : lookupFs env.fs (joinPath env.dir (redirectArg (strip t))) = some tl) :
    ∀ (f : Nat) (s2 : RState) r2, nexttag env f s2 = some r2 →
    ∀ (s1 : RState) (p q : List String), virt s1 = p ++ t :: q → virt s2 = p ++ tl ++ q →
    ∃ g r, nexttag env g s1 = some r ∧ MatchC t tl r r2 := by
  intro f
  induction f using Nat.strong_induction_on with
  | _ f IH =>
  intro s2 r2 h s1 p q hvs1 hvs2
  obtain ⟨g2, hg2, h2⟩ := nexttag_popAllAux env s2.backburner s2.active f r2 h
  obtain ⟨n2, hn2⟩ : ∃ n2, popAllAux s2.active s2.backburner = n2 := ⟨_, rfl⟩
  rw [hn2] at h2
  have hv2 : virt n2 = virt s2 := by rw [← hn2]; exact virt_popAllAux s2.backburner s2.active
  obtain ⟨n1, hn1⟩ : ∃ n1, popAllAux s1.active s1.backburner = n1 := ⟨_, rfl⟩
  have hv1 : virt n1 = virt s1 := by rw [← hn1]; exact virt_popAllAux s1.backburner s1.active
  have hsh1 := popAllAux_shape s1.backburner s1.active
  have hsh2 := popAllAux_shape s2.backburner s2.active
  rw [hn1] at hsh1
  rw [hn2] at hsh2
  suffices hsuf : ∃ g r, nexttag env g n1 = some r ∧ MatchC t tl r r2 by
    obtain ⟨g, r, hrun, hm⟩ := hsuf
    rw [← hn1] at hrun
    obtain ⟨f1, hf1⟩ := nexttag_popAllAux_rev env s1.backburner s1.active g r hrun
    exact ⟨f1, r, hf1, hm⟩
  rcases hsh1 with hex1 | ⟨hne1, hbb1⟩
  · obtain ⟨lraw, hget1⟩ : ∃ l, n1.active.content[n1.active.pos]? = some l :=
      ⟨_, List.getElem?_eq_getElem hex1⟩
    have hcons1 := virt_cons n1 lraw hget1
    have he1 : eof_check n1 = (false, n1) := eof_check_active n1 hex1
    have hnl1 : nextline n1 =
        (strip lraw, ⟨⟨n1.active.content, n1.active.pos + 1⟩, n1.backburner⟩) :=
      nextline_get n1 lraw hget1
    rcases p with _ | ⟨lh, p'⟩
    · -- the head of the original stream is the redirect line itself
      have hhead : lraw :: virt ⟨⟨n1.active.content, n1.active.pos + 1⟩, n1.backburner⟩ =
          t :: q := by rw [← hcons1, hv1, hvs1]; rfl
      injection hhead with hl_eq hrest_eq
      rw [hl_eq] at hget1 hnl1
      have hvp : virt n2 = virt (⟨⟨tl, 0⟩,
          (⟨⟨n1.active.content, n1.active.pos + 1⟩, n1.backburner⟩ : RState).active ::
          (⟨⟨n1.active.content, n1.active.pos + 1⟩, n1.backburner⟩ : RState).backburner⟩ :
            RState) := by
        rw [virt_push tl ⟨⟨n1.active.content, n1.active.pos + 1⟩, n1.backburner⟩,
          hrest_eq, hv2, hvs2]
        rfl
      obtain ⟨g3, r3, h3, hm⟩ := nexttag_sim env g2 n2 r2 h2 _ hvp
      refine ⟨g3 + 1, r3, ?_, matchRes_matchC t tl r3 r2 (matchRes_symm r2 r3 hm)⟩
      rw [nexttag_redirect env g3 n1 n1 _ (strip t) tl he1 hnl1 hred harg]
      exact h3
    · -- a shared prefix line is at the head of both streams
      have hhead : lraw :: virt ⟨⟨n1.active.content, n1.active.pos + 1⟩, n1.backburner⟩ =
          lh :: (p' ++ t :: q) := by rw [← hcons1, hv1, hvs1]; rfl
      injection hhead with hl_eq hrest1
      rw [hl_eq] at hget1 hnl1
      rcases hsh2 with hex2 | ⟨hne2, hbb2⟩
      · obtain ⟨lraw2, hget2⟩ : ∃ l, n2.active.content[n2.active.pos]? = some l :=
          ⟨_, List.getElem?_eq_getElem hex2⟩
        have hcons2 := virt_cons n2 lraw2 hget2
        have hhead2 : lraw2 :: virt ⟨⟨n2.active.content, n2.active.pos + 1⟩, n2.backburner⟩ =
            lh :: (p' ++ tl ++ q) := by
          rw [← hcons2, hv2, hvs2]
          rfl
        injection hhead2 with hl_eq2 hrest2
        rw [hl_eq2] at hget2
        have he2 : eof_check n2 = (false, n2) := eof_check_active n2 hex2
        have hnl2 : nextline n2 =
            (strip lh, ⟨⟨n2.active.content, n2.active.pos + 1⟩, n2.backburner⟩) :=
          nextline_get n2 lh hget2
        cases hr : isRedirectLine (strip lh) with
        | true =>
          rcases hl : lookupFs env.fs (joinPath env.dir (redirectArg (strip lh))) with _ | tl'
          · cases g2 with
            | zero => rw [nexttag_zero] at h2; cases h2
            | succ g2 =>
              rw [nexttag_redirect_missing env g2 n2 n2 _ (strip lh) he2 hnl2 hr hl] at h2
              have hre := Option.some.inj h2
              subst hre
              refine ⟨1, _, nexttag_redirect_missing env 0 n1 n1 _ (strip lh) he1 hnl1 hr hl, ?_⟩
              exact rfl
          · cases g2 with
            | zero => rw [nexttag_zero] at h2; cases h2
            | succ g2 =>
              rw [nexttag_redirect env g2 n2 n2 _ (strip lh) tl' he2 hnl2 hr hl] at h2
              have hvp1 : virt (⟨⟨tl', 0⟩,
                  (⟨⟨n1.active.content, n1.active.pos + 1⟩, n1.backburner⟩ : RState).active ::
                  (⟨⟨n1.active.content, n1.active.pos + 1⟩, n1.backburner⟩ : RState).backburner⟩ :
                    RState) = (tl' ++ p') ++ t :: q := by
                rw [virt_push tl' ⟨⟨n1.active.content, n1.active.pos + 1⟩, n1.backburner⟩, hrest1,
                  List.append_assoc]
              have hvp2 : virt (⟨⟨tl', 0⟩,
                  (⟨⟨n2.active.content, n2.active.pos + 1⟩, n2.backburner⟩ : RState).active ::
                  (⟨⟨n2.active.content, n2.active.pos + 1⟩, n2.backburner⟩ : RState).backburner⟩ :
                    RState) = (tl' ++ p') ++ tl ++ q := by
                rw [virt_push tl' ⟨⟨n2.active.content, n2.active.pos + 1⟩, n2.backburner⟩, hrest2]
                simp [List.append_assoc]
              obtain ⟨g0, r0, h0, hm⟩ := IH g2 (by omega) _ r2 h2 _ (tl' ++ p') q hvp1 hvp2
              refine ⟨g0 + 1, r0, ?_, hm⟩
              rw [nexttag_redirect env g0 n1 n1 _ (strip lh) tl' he1 hnl1 hr hl]
              exact h0
        | false =>
          cases ht : startsWithStr (strip lh) ":" with
          | true =>
            cases g2 with
            | zero => rw [nexttag_zero] at h2; cases h2
            | succ g2 =>
              rw [nexttag_tag env g2 n2 n2 _ (strip lh) he2 hnl2 hr ht] at h2
              have hre := Option.some.inj h2
              subst hre
              refine ⟨1, _, nexttag_tag env 0 n1 n1 _ (strip lh) he1 hnl1 hr ht, ?_⟩
              exact ⟨rfl, Or.inr ⟨p', q, hrest1, hrest2⟩⟩
          | false =>
            cases g2 with
            | zero => rw [nexttag_zero] at h2; cases h2
            | succ g2 =>
              rw [nexttag_skip env g2 n2 n2 _ (strip lh) he2 hnl2 hr ht] at h2
              obtain ⟨g0, r0, h0, hm⟩ := IH g2 (by omega) _ r2 h2 _ p' q hrest1 hrest2
              refine ⟨g0 + 1, r0, ?_, hm⟩
              rw [nexttag_skip env g0 n1 n1 _ (strip lh) he1 hnl1 hr ht]
              exact h0
      · exfalso
        have hrem2 : n2.active.remaining = [] := by
          simp [FHandle.remaining, List.drop_eq_nil_iff]
          omega
        have hnil2 : virt n2 = [] := by simp [virt, hrem2, hbb2]
        rw [hv2, hvs2] at hnil2
        cases hnil2
  · exfalso
    have hrem1 : n1.active.remaining = [] := by
      simp [FHandle.remaining, List.drop_eq_nil_iff]
      omega
    have hnil1 : virt n1 = [] := by simp [virt, hrem1, hbb1]
    rw [hv1, hvs1] at hnil1
    rcases p with _ | ⟨lh, p'⟩ <;> cases hnil1

theorem nexttag_srel (env : Env) (t : String) (tl : List String)
    (hred : isRedirectLine (strip t) = true)
    (harg : lookupFs env.fs (joinPath env.dir (redirectArg (strip t))) = some tl)
    (f : Nat) (s1 : RState) r (h : nexttag env f s1 = some r)
    (s2 : RState) (hrel : SRel t tl (virt s1) (virt s2)) :
    ∃ g r2, nexttag env g s2 = some r2 ∧ MatchC t tl r r2 := by
  rcases hrel with heq | ⟨p, q, h1, h2⟩
  · obtain ⟨g, r2, hr2, hm⟩ := nexttag_sim env f s1 r h s2 heq
    exact ⟨g, r2, hr2, matchRes_matchC t tl r r2 hm⟩
  · exact nexttag_cross env t tl hred harg f s1 r h s2 p q h1 h2

theorem nexttag_srel_bwd (env : Env) (t : String) (tl : List String)
    (hred : isRedirectLine (strip t) = true)
    (harg : lookupFs env.fs (joinPath env.dir (redirectArg (strip t))) = some tl)
    (f : Nat) (s2 : RState) r2 (h : nexttag env f s2 = some r2)
    (s1 : RState) (hrel : SRel t tl (virt s1) (virt s2)) :
    ∃ g r, nexttag env g s1 = some r ∧ MatchC t tl r r2 := by
  rcases hrel with heq | ⟨p, q, h1, h2⟩
  · obtain ⟨g, r, hr, hm⟩ := nexttag_sim env f s2 r2 h s1 heq.symm
    exact ⟨g, r, hr, matchRes_matchC t tl r r2 (matchRes_symm r2 r hm)⟩
  · exact nexttag_cross_bwd env t tl hred harg f s2 r2 h s1 p q h1 h2

theorem matchC_error (t : String) (tl : List String) (m : String) (r2 : _)
    (h : MatchC t tl (.error m) r2) : r2 = .error m := by
  rcases r2 with m2 | ⟨_ | l2, a2⟩
  · cases h; rfl
  · exact False.elim h
  · exact False.elim h

theorem matchC_eof (t : String) (tl : List String) (a : RState) (r2 : _)
    (h : MatchC t tl (.ok (none, a)) r2) : ∃ b, r2 = .ok (none, b) := by
  rcases r2 with m2 | ⟨_ | l2, a2⟩
  · exact False.elim h
  · exact ⟨a2, rfl⟩
  · exact False.elim h

theorem matchC_tag (t : String) (tl : List String) (l : String) (a : RState) (r2 : _)
    (h : MatchC t tl (.ok (some l, a)) r2) :
    ∃ b, r2 = .ok (some l, b) ∧ SRel t tl (virt a) (virt b) := by
  rcases r2 with m2 | ⟨_ | l2, a2⟩
  · exact False.elim h
  · exact False.elim h
  · obtain ⟨hl, hs⟩ := h
    exact ⟨a2, by rw [hl], hs⟩

theorem matchC_error_r (t : String) (tl : List String) (m : String) (r : _)
    (h : MatchC t tl r (.error m)) : r = .error m := by
  rcases r with m1 | ⟨_ | l1, a1⟩
  · cases h; rfl
  · exact False.elim h
  · exact False.elim h

theorem matchC_eof_r (t : String) (tl : List String) (b : RState) (r : _)
    (h : MatchC t tl r (.ok (none, b))) : ∃ a, r = .ok (none, a) := by
  rcases r with m1 | ⟨_ | l1, a1⟩
  · exact False.elim h
  · exact ⟨a1, rfl⟩
  · exact False.elim h

theorem matchC_tag_r (t : String) (tl : List String) (l : String) (b : RState) (r : _)
    (h : MatchC t tl r (.ok (some l, b))) :
    ∃ a, r = .ok (some l, a) ∧ SRel t tl (virt a) (virt b) := by
  rcases r with m1 | ⟨_ | l1, a1⟩
  · exact False.elim h
  · exact False.elim h
  · obtain ⟨hl, hs⟩ := h
    exact ⟨a1, by rw [hl], hs⟩

theorem runTags_zero (env : Env) (f : Nat) (s : RState) : runTags env f 0 s = none := rfl

theorem runTags_none (env : Env) (f n : Nat) (s : RState) (h : nexttag env f s = none) :
    runTags env f (n + 1) s = none := by
  simp [runTags, h]

theorem runTags_err (env : Env) (f n : Nat) (s : RState) (m : String)
    (h : nexttag env f s = some (.error m)) :
    runTags env f (n + 1) s = some ([], some m) := by
  simp [runTags, h]

theorem runTags_eofcase (env : Env) (f n : Nat) (s s1 : RState)
    (h : nexttag env f s = some (.ok (none, s1))) :
    runTags env f (n + 1) s = some ([], none) := by
  simp [runTags, h]

theorem runTags_tag_some (env : Env) (f n : Nat) (s s1 : RState) (l : String)
    (ts : List String) (tm : Option String)
    (h : nexttag env f s = some (.ok (some l, s1)))
    (h2 : runTags env f n s1 = some (ts, tm)) :
    runTags env f (n + 1) s = some (l :: ts, tm) := by
  simp [runTags, h, h2]

theorem runTags_tag_none (env : Env) (f n : Nat) (s s1 : RState) (l : String)
    (h : nexttag env f s = some (.ok (some l, s1)))
    (h2 : runTags env f n s1 = none) :
    runTags env f (n + 1) s = none := by
  simp [runTags, h, h2]

theorem runTags_mono_le (env : Env) (f g : Nat) (hfg : f ≤ g) : ∀ (n : Nat) (s : RState) res,
    runTags env f n s = some res → runTags env g n s = some res := by
  intro n
  induction n with
  | zero => intro s res h; rw [runTags_zero] at h; cases h
  | succ n ih =>
    intro s res h
    rcases hc : nexttag env f s with _ | r1
    · rw [runTags_none env f n s hc] at h; cases h
    rcases r1 with m | ⟨o, s1⟩
    · rw [runTags_err env f n s m hc] at h
      rw [runTags_err env g n s m (nexttag_mono_le env g f hfg s _ hc)]
      exact h
    rcases o with _ | l
    · rw [runTags_eofcase env f n s s1 hc] at h
      rw [runTags_eofcase env g n s s1 (nexttag_mono_le env g f hfg s _ hc)]
      exact h
    · rcases hrec : runTags env f n s1 with _ | ⟨ts, tm⟩
      · rw [runTags_tag_none env f n s s1 l hc hrec] at h; cases h
      · rw [runTags_tag_some env f n s s1 l ts tm hc hrec] at h
        rw [runTags_tag_some env g n s s1 l ts tm (nexttag_mono_le env g f hfg s _ hc)
          (ih s1 (ts, tm) hrec)]
        exact h

theorem runTags_srel (env : Env) (t : String) (tl : List String)
    (hred : isRedirectLine (strip t) = true)
    (harg : lookupFs env.fs (joinPath env.dir (redirectArg (strip t))) = some tl) :
    ∀ (n f : Nat) (s1 : RState) res, runTags env f n s1 = some res →
    ∀ (s2 : RState), SRel t tl (virt s1) (virt s2) →
    ∃ g, runTags env g n s2 = some res := by
  intro n
  induction n with
  | zero => intro f s1 res h s2 hrel; rw [runTags_zero] at h; cases h
  | succ n ih =>
    intro f s1 res h s2 hrel
    rcases hc : nexttag env f s1 with _ | r1
    · rw [runTags_none env f n s1 hc] at h; cases h
    rcases r1 with m | ⟨o, s1'⟩
    · rw [runTags_err env f n s1 m hc] at h
      have hres := Option.some.inj h
      subst hres
      obtain ⟨g, r2, hr2, hm⟩ := nexttag_srel env t tl hred harg f s1 _ hc s2 hrel
      have hr2e := matchC_error t tl m r2 hm
      subst hr2e
      exact ⟨g, runTags_err env g n s2 m hr2⟩
    rcases o with _ | l
    · rw [runTags_eofcase env f n s1 s1' hc] at h
      have hres := Option.some.inj h
      subst hres
      obtain ⟨g, r2, hr2, hm⟩ := nexttag_srel env t tl hred harg f s1 _ hc s2 hrel
      obtain ⟨b, hb⟩ := matchC_eof t tl s1' r2 hm
      subst hb
      exact ⟨g, runTags_eofcase env g n s2 b hr2⟩
    · rcases hrec : runTags env f n s1' with _ | ⟨ts, tm⟩
      · rw [runTags_tag_none env f n s1 s1' l hc hrec] at h; cases h
      · rw [runTags_tag_some env f n s1 s1' l ts tm hc hrec] at h
        have hres := Option.some.inj h
        subst hres
        obtain ⟨g, r2, hr2, hm⟩ := nexttag_srel env t tl hred harg f s1 _ hc s2 hrel
        obtain ⟨b, hb, hrel'⟩ := matchC_tag t tl l s1' r2 hm
        subst hb
        obtain ⟨g', hg'⟩ := ih f s1' (ts, tm) hrec b hrel'
        refine ⟨max g g', ?_⟩
        exact runTags_tag_some env (max g g') n s2 b l ts tm
          (nexttag_mono_le env (max g g') g (le_max_left g g') s2 _ hr2)
          (runTags_mono_le env g' (max g g') (le_max_right g g') n b (ts, tm) hg')

theorem runTags_srel_bwd (env : Env) (t : String) (tl : List String)
    (hred : isRedirectLine (strip t) = true)
    (harg : lookupFs env.fs (joinPath env.dir (redirectArg (strip t))) = some tl) :
    ∀ (n f : Nat) (s2 : RState) res, runTags env f n s2 = some res →
    ∀ (s1 : RState), SRel t tl (virt s1) (virt s2) →
    ∃ g, runTags env g n s1 = some res := by
  intro n
  induction n with
  | zero => intro f s2 res h s1 hrel; rw [runTags_zero] at h; cases h
  | succ n ih =>
    intro f s2 res h s1 hrel
    rcases hc : nexttag env f s2 with _ | r2
    · rw [runTags_none env f n s2 hc] at h; cases h
    rcases r2 with m | ⟨o, s2'⟩
    · rw [runTags_err env f n s2 m hc] at h
      have hres := Option.some.inj h
      subst hres
      obtain ⟨g, r, hr, hm⟩ := nexttag_srel_bwd env t tl hred harg f s2 _ hc s1 hrel
      have hre := matchC_error_r t tl m r hm
      subst hre
      exact ⟨g, runTags_err env g n s1 m hr⟩
    rcases o with _ | l
    · rw [runTags_eofcase env f n s2 s2' hc] at h
      have hres := Option.some.inj h
      subst hres
      obtain ⟨g, r, hr, hm⟩ := nexttag_srel_bwd env t tl hred harg f s2 _ hc s1 hrel
      obtain ⟨a, ha⟩ := matchC_eof_r t tl s2' r hm
      subst ha
      exact ⟨g, runTags_eofcase env g n s1 a hr⟩
    · rcases hrec : runTags env f n s2' with _ | ⟨ts, tm⟩
      · rw [runTags_tag_none env f n s2 s2' l hc hrec] at h; cases h
      · rw [runTags_tag_some env f n s2 s2' l ts tm hc hrec] at h
        have hres := Option.some.inj h
        subst hres
        obtain ⟨g, r, hr, hm⟩ := nexttag_srel_bwd env t tl hred harg f s2 _ hc s1 hrel
        obtain ⟨a, ha, hrel'⟩ := matchC_tag_r t tl l s2' r hm
        subst ha
        obtain ⟨g', hg'⟩ := ih f s2' (ts, tm) hrec a hrel'
        refine ⟨max g g', ?_⟩
        exact runTags_tag_some env (max g g') n s1 a l ts tm
          (nexttag_mono_le env (max g g') g (le_max_left g g') s1 _ hr)
          (runTags_mono_le env g' (max g g') (le_max_right g g') n a (ts, tm) hg')

/-- C2 (amended): for every resolvable redirect line, the sequence of tags
returned by repeatedly calling `nexttag` on a file containing the redirect
line equals the sequence returned on the file with the target's lines
textually inlined in its place — in both directions, for any fuel on the
given run and some fuel on the produced run.  This covers nested
redirects: `pre`, `tl` and `post` may themselves contain further redirect
lines, which both runs follow identically.  (The original claim also
asserted that decoded tables coincide; that part is refuted by the
straddling counterexample.) -/
theorem redirect_inline_tags (env : Env) (t : String) (tl pre post : List String)
    (hred : isRedirectLine (strip t) = true)
    (harg : lookupFs env.fs (joinPath env.dir (redirectArg (strip t))) = some tl) :
    (∀ f n res, runTags env f n (canon (pre ++ t :: post)) = some res →
      ∃ g, runTags env g n (canon (pre ++ tl ++ post)) = some res) ∧
    (∀ f n res, runTags env f n (canon (pre ++ tl ++ post)) = some res →
      ∃ g, runTags env g n (canon (pre ++ t :: post)) = some res) := by
  have hv1 : virt (canon (pre ++ t :: post)) = pre ++ t :: post := by
    simp [canon, virt, FHandle.remaining]
  have hv2 : virt (canon (pre ++ tl ++ post)) = pre ++ tl ++ post := by
    simp [canon, virt, FHandle.remaining]
  constructor
  · intro f n res h
    exact runTags_srel env t tl hred harg n f _ res h _ (Or.inr ⟨pre, post, hv1, hv2⟩)
  · intro f n res h
    exact runTags_srel_bwd env t tl hred harg n f _ res h _ (Or.inr ⟨pre, post, hv1, hv2⟩)

theorem redirect_inline_tags_witness :
    ∃ g, runTags ⟨[("t", [":B"])], "", "a"⟩ g 4 (canon ([":A"] ++ [":B"] ++ [":C"])) =
      some ([":A", ":B", ":C"], none) :=
  (redirect_inline_tags ⟨[("t", [":B"])], "", "a"⟩ ":RedirectToFile t" [":B"] [":A"] [":C"]
    (by decide) (by decide)).1 5 4 ([":A", ":B", ":C"], none) (by decide)

/-- C2 counterexample: the same logical document read once through a
redirect and once inlined returns the same tag (`:Data`) but then decodes
*differently*: the redirected file ends right after the tag, so the
decoder (which reads data lines from the active handle only) finds an
empty buffer and aborts with pandas' `EmptyDataError`, while the inlined
version decodes a one-row table from the parent's following line `1.0`.
Observable results therefore differ even though every redirect target
exists, refuting the "same tables decoded" part of the claim. -/
theorem redirect_table_straddle_counterexample :
    nexttag ⟨[("b", [":Data"])], "", "a.rvt"⟩ 3 (canon [":RedirectToFile b", "1.0"]) =
      some (.ok (some ":Data", ⟨⟨[":Data"], 1⟩, [⟨[":RedirectToFile b", "1.0"], 1⟩]⟩)) ∧
    nexttag ⟨[("b", [":Data"])], "", "a.rvt"⟩ 3 (canon [":Data", "1.0"]) =
      some (.ok (some ":Data", ⟨⟨[":Data", "1.0"], 1⟩, []⟩)) ∧
    read_RavenFrame ⟨[("b", [":Data"])], "", "a.rvt"⟩ 1 (some 1) false none false none "-1.2345"
        ⟨⟨[":Data"], 1⟩, [⟨[":RedirectToFile b", "1.0"], 1⟩]⟩ =
      some (.error "EmptyDataError") ∧
    read_RavenFrame ⟨[("b", [":Data"])], "", "a.rvt"⟩ 1 (some 1) false none false none "-1.2345"
        ⟨⟨[":Data", "1.0"], 1⟩, []⟩ =
      some (.ok ((⟨["0"], [[some "1.0"]], none⟩, []), ⟨⟨[":Data", "1.0"], 2⟩, []⟩)) := by
  decide

end Raven
